import Mathlib

/-!
# Verification of the file-cache engine (dwidge/file-cache-expo)

A shallow embedding of the cache prioritization and synchronization engine:
the eviction policy (`evictCacheItem`), the upload synchronizer
(`syncPendingFiles`), the cache refresher (`syncLatestFiles`), the live
mount fetcher (`runLiveCache`), the mount tracker (`useMountTracker`), and
the pending-cap guard of `useItem.setItem`, all translated from
`src/provider.tsx` and its helper modules.

Modelling conventions:
* `FileId` and `DataUri` are strings, as in the source.
* A persistent URI store (`ManagedUriStorage`) is an association list from
  ids to values; `setUri id (some d)` inserts or replaces, `setUri id none`
  (JS `null`/`undefined`) deletes the entry, `deleteUri` deletes, matching
  the `ManagedUriStorage` contract.
* The upload (pending) store can hold an explicitly stored `null`
  (a pending deletion), so its values are `Option DataUri`; a missing key
  is JS `undefined` ("Pending file not found").
* Remote transfer is an oracle: `download : FileId → Except String Fetched`
  returns a blob (`DataUri`), a deleted tombstone (JS `null`), a not-found
  (JS `undefined`), or a thrown error; `upload` likewise may throw.
* Batch passes run at the default `concurrency = 1` of `pLimit`, i.e. the
  items are admitted and completed in list order; per-item exceptions are
  collected as in `Promise.allSettled` and re-raised as one aggregate.
* Cancellation (`AbortSignal`) is not modelled; all runs are uncancelled.
-/

/-- Opaque unique string identifying one logical file (`FileId` in `types.ts`). -/
abbrev FileId := String

/-- A data URI string holding a blob (`DataUri` in `types.ts`). -/
abbrev DataUri := String

namespace FileCache

/-- An association-list store of values of type `α` keyed by `FileId`,
modelling one `UriStorage` scope (ids are the keys). -/
abbrev AList (α : Type) := List (FileId × α)

namespace AList

/-- Look up the value stored under `k`; `none` means the key is absent. -/
def get {α : Type} (l : AList α) (k : FileId) : Option α :=
  match l with
  | [] => none
  | (a, v) :: t => if a = k then some v else get t k

/-- Insert or replace the value under `k` (JS object/`Map` update:
replace in place when present, append when new). -/
def set {α : Type} (l : AList α) (k : FileId) (v : α) : AList α :=
  match l with
  | [] => [(k, v)]
  | (a, w) :: t => if a = k then (a, v) :: t else (a, w) :: set t k v

/-- Delete the entry under `k` (JS `delete` / `deleteUri`). -/
def del {α : Type} (l : AList α) (k : FileId) : AList α :=
  match l with
  | [] => []
  | (a, v) :: t => if a = k then del t k else (a, v) :: del t k

/-- The list of ids present in the store (`getIds` / `ManagedUriStorage.ids`). -/
def keys {α : Type} (l : AList α) : List FileId :=
  l.map (·.1)

end AList

/-- The result of a remote `downloadFile` call that did not throw:
a blob, an explicit deletion tombstone (JS `null`), or not-found
(JS `undefined`). -/
inductive Fetched where
  | blob (data : DataUri)
  | deleted
  | notFound
deriving DecidableEq, Repr

/-- The read cache byte store (`cacheStorage`): each present id holds a blob. -/
abbrev CacheStore := AList DataUri

/-- The pending byte store (`uploadStorage`): a stored value may be a blob or
an explicitly stored `null` (a pending deletion). -/
abbrev UploadStore := AList (Option DataUri)

/-- `setUri` on the cache store: `some d` writes the blob, `none`
(JS `null`/`undefined`) deletes the entry and removes the id. -/
def setCacheUri (cache : CacheStore) (id : FileId) : Option DataUri → CacheStore
  | some d => AList.set cache id d
  | none => AList.del cache id

/--
`evictCacheItem(cachedIds, mountedIds, recentIds, setUri)` from
`provider.tsx` (also shipped standalone as `evictCacheItem.ts`):

```
const candidates = cachedIds.filter(
  (id) => !mountedIds.includes(id) && !recentIds.includes(id),
);
if (candidates.length === 0) return null;
const evictId = candidates[candidates.length - 1];
await setUri(evictId, undefined);
return evictId;
```

Returns the evicted id (or `none`) together with the cache store after the
`setUri(evictId, undefined)` deletion.
-/
def evictCacheItem (cachedIds mountedIds recentIds : List FileId)
    (cache : CacheStore) : Option FileId × CacheStore :=
  let candidates := cachedIds.filter
    (fun id => !mountedIds.contains id && !recentIds.contains id)
  match candidates.getLast? with
  | none => (none, cache)
  | some evictId => (some evictId, setCacheUri cache evictId none)

/-- The candidate list the eviction policy filters from `cachedIds`:
ids neither mounted nor recent (the pending list is not consulted). -/
def evictionCandidates (cachedIds mountedIds recentIds : List FileId) :
    List FileId :=
  cachedIds.filter (fun id => !mountedIds.contains id && !recentIds.contains id)

/-- Modelled from the spec (for comparison only, not from the source):
"Candidate set = cachedIds minus the union of the three priority sets",
i.e. minus PendingSet, MountedSet and RecentQueue. -/
def specEvictionCandidates (cachedIds pendingIds mountedIds recentIds :
    List FileId) : List FileId :=
  cachedIds.filter (fun id => !pendingIds.contains id &&
    !mountedIds.contains id && !recentIds.contains id)

/-- The shared mutable state the synchronizers touch: the two byte stores,
the two per-id error maps, and the missing-id list. -/
structure St where
  cache : CacheStore
  upload : UploadStore
  uploadErrors : AList String
  cacheErrors : AList String
  missing : List FileId
deriving DecidableEq, Repr

/-- The verification comparison of `syncPendingFiles`
(`fetchedDataUri !== dataUri`, JS strict equality between
`DataUri | null | undefined` and `DataUri | null`): the length re-check that
follows it in the source can never fire once this passed. -/
def fetchedMatches (f : Fetched) (v : Option DataUri) : Bool :=
  match f, v with
  | .blob d, some u => d = u
  | .deleted, none => true
  | _, _ => false

/-- Error message of step 1 of `syncPendingFiles` (pending blob absent). -/
def pendingNotFoundMsg : String := "Pending file not found in upload storage."

/-- Error message of the failed confirmation fetch of `syncPendingFiles`. -/
def verificationMismatchMsg : String :=
  "Confirmation fetch failed: File not found on server after upload."

/--
One item of the `syncPendingFiles` batch in `provider.tsx` (uncancelled run):

1. `getUploadUri(id)`; `undefined` → record a not-found failure, continue.
2. `uploadFile(id, dataUri)`; a throw is caught, recorded, re-raised per-item.
3. confirmation `downloadFile(id)`; a throw is treated the same way;
   `fetchedDataUri !== dataUri` → `VerificationMismatch` recorded, pending
   blob untouched.
4. on match: `setCacheUri(id, dataUri)`, `deleteUploadUri(id)`, drop `id`
   from `missingFileIds`, delete `uploadErrors[id]`.

Returns the new state and the per-item rejection (`some msg` if this item's
promise rejected). -/
def processPendingItem (upload : FileId → Option DataUri → Except String Unit)
    (download : FileId → Except String Fetched) (st : St) (id : FileId) :
    St × Option String :=
  match AList.get st.upload id with
  | none =>
      ({ st with uploadErrors := AList.set st.uploadErrors id pendingNotFoundMsg },
        some pendingNotFoundMsg)
  | some dataUri =>
      match upload id dataUri with
      | .error e =>
          ({ st with uploadErrors := AList.set st.uploadErrors id e }, some e)
      | .ok _ =>
          match download id with
          | .error e =>
              ({ st with uploadErrors := AList.set st.uploadErrors id e }, some e)
          | .ok fetched =>
              if fetchedMatches fetched dataUri then
                ({ st with
                    cache := setCacheUri st.cache id dataUri,
                    upload := AList.del st.upload id,
                    missing := st.missing.filter (fun p => p ≠ id),
                    uploadErrors := AList.del st.uploadErrors id }, none)
              else
                ({ st with uploadErrors :=
                    AList.set st.uploadErrors id verificationMismatchMsg },
                  some verificationMismatchMsg)

/-- One fold step of the `syncPendingFiles` batch: run the item and append
its rejection (if any) to the collected errors. -/
def pendingStep (upload : FileId → Option DataUri → Except String Unit)
    (download : FileId → Except String Fetched)
    (acc : St × List String) (id : FileId) : St × List String :=
  let r := processPendingItem upload download acc.1 id
  (r.1, acc.2 ++ r.2.toList)

/-- The `syncPendingFiles` batch of `provider.tsx` at the default
`concurrency = 1`: every pending id is attempted in order
(`Promise.allSettled` — a rejection never stops the siblings), and the
rejections are collected in item order. -/
def syncPendingFiles (upload : FileId → Option DataUri → Except String Unit)
    (download : FileId → Except String Fetched) (pendingIds : List FileId)
    (st : St) : St × List String :=
  pendingIds.foldl (pendingStep upload download) (st, [])

/-- `if (errors.length > 0) throw new AggregateError(errors, ...)`:
`some errs` models the raised aggregate, `none` a clean return. -/
def aggregateOf (errs : List String) : Option (List String) :=
  if errs.isEmpty then none else some errs

/-- Output of the eviction loop inside `syncLatestFiles`. -/
structure EvictLoopOut where
  cur : List FileId
  cache : CacheStore
  evicted : List FileId
  stalled : Bool
deriving DecidableEq, Repr

/-- The eviction loop of `syncLatestFiles`:

```
for (let i = 0; i < numToEvict; i++) {
  const evicted = await evictCacheItem(currentCachedIds, mountedFileIds, recentFileIds, setCacheUri);
  if (!evicted) { break; }
  currentCachedIds = currentCachedIds.filter((cachedId) => cachedId !== evicted);
}
```

`fuel` is `numToEvict`; `stalled` records the early `break`. -/
def evictLoop (mountedIds recentIds : List FileId) :
    Nat → List FileId → CacheStore → EvictLoopOut
  | 0, cur, cache => ⟨cur, cache, [], false⟩
  | n + 1, cur, cache =>
      match evictCacheItem cur mountedIds recentIds cache with
      | (none, cache') => ⟨cur, cache', [], true⟩
      | (some e, cache') =>
          let r := evictLoop mountedIds recentIds n
            (cur.filter (fun cachedId => cachedId ≠ e)) cache'
          ⟨r.cur, r.cache, e :: r.evicted, r.stalled⟩

/-- The number of `evictCacheItem` invocations an `evictLoop` run made:
each successful call contributes one, and a stalling call (the one that
returned `null` and broke the loop) contributes one more. -/
def EvictLoopOut.calls (r : EvictLoopOut) : Nat :=
  r.evicted.length + (if r.stalled then 1 else 0)

/-- JS `Array.prototype.slice(0, end)`: a negative `end` counts from the end
of the array (`idsToFetch.slice(0, maxCache - currentCachedIds.length)`). -/
def jsSliceTo {α : Type} (l : List α) (e : Int) : List α :=
  if e < 0 then l.take ((l.length + e).toNat) else l.take e.toNat

/-- `setMissingFileIds((prev) => [...new Set([...prev, id])])` on a
duplicate-free list: append `id` unless already present. -/
def addMissing (missing : List FileId) (id : FileId) : List FileId :=
  if missing.contains id then missing else missing ++ [id]

/--
One item of the fetch batch of `syncLatestFiles` in `provider.tsx`
(uncancelled run). The accumulator carries the state, the
`currentCachedIds` closure variable, and the collected per-item rejections:

* a thrown download → `cacheErrors[id]` set, error re-raised per-item;
* `undefined` → `id` added to `missingFileIds`;
* `null` → deleted on the server, not cached, dropped from missing;
* a blob → `setCacheUri(id, dataUri)`, `currentCachedIds.push(id)`, dropped
  from missing, `cacheErrors[id]` deleted.
-/
def processFetchItem (download : FileId → Except String Fetched)
    (acc : St × List FileId × List String) (id : FileId) :
    St × List FileId × List String :=
  let st := acc.1
  let cur := acc.2.1
  let errs := acc.2.2
  match download id with
  | .error e =>
      ({ st with cacheErrors := AList.set st.cacheErrors id e }, cur, errs ++ [e])
  | .ok .notFound =>
      ({ st with missing := addMissing st.missing id }, cur, errs)
  | .ok .deleted =>
      ({ st with missing := st.missing.filter (fun p => p ≠ id) }, cur, errs)
  | .ok (.blob d) =>
      ({ st with
          cache := AList.set st.cache id d,
          missing := st.missing.filter (fun p => p ≠ id),
          cacheErrors := AList.del st.cacheErrors id },
        cur ++ [id], errs)

/-- The full record of one `syncLatestFiles` run: final state, the computed
`idsToFetch` and `finalIdsToFetch` lists, the ids the eviction loop evicted,
whether it stalled, `currentCachedIds` after eviction, and the per-item
rejections feeding the aggregate error. -/
structure RefreshRun where
  st : St
  idsToFetch : List FileId
  attempted : List FileId
  evicted : List FileId
  stalled : Bool
  curAfterEvict : List FileId
  errors : List String
deriving DecidableEq, Repr

/--
`syncLatestFiles` from `provider.tsx` (uncancelled, default concurrency):

```
const cacheableCount = ((maxCache * 3) / 4) | 0;
let currentCachedIds = [...cacheFileIds];
const idsToFetch = [...recentFileIds, ...((await getCacheableIds(cacheableCount)) ?? [])]
  .filter((id) => !currentCachedIds.includes(id))
  .slice(0, cacheableCount);
if (idsToFetch.length === 0) return;
const numToEvict = Math.max(0, currentCachedIds.length + idsToFetch.length - maxCache);
if (numToEvict > 0) { ...eviction loop... }
const finalIdsToFetch = idsToFetch.slice(0, maxCache - currentCachedIds.length);
...fetch loop...
if (errors.length > 0) throw new AggregateError(errors, "One or more downloads failed");
```

`((maxCache * 3) / 4) | 0` is `3 * maxCache / 4` on natural numbers, and
`Math.max(0, a + b - c)` is truncated subtraction. -/
def syncLatestFiles (getCacheableIds : Nat → Option (List FileId))
    (download : FileId → Except String Fetched)
    (cachedIds mountedIds recentIds : List FileId) (maxCache : Nat)
    (st : St) : RefreshRun :=
  let cacheableCount := maxCache * 3 / 4
  let cacheableIds := (getCacheableIds cacheableCount).getD []
  let idsToFetch :=
    ((recentIds ++ cacheableIds).filter
      (fun id => !cachedIds.contains id)).take cacheableCount
  if idsToFetch.isEmpty then
    ⟨st, idsToFetch, [], [], false, cachedIds, []⟩
  else
    let numToEvict := cachedIds.length + idsToFetch.length - maxCache
    let ev := evictLoop mountedIds recentIds numToEvict cachedIds st.cache
    let finalIdsToFetch := jsSliceTo idsToFetch ((maxCache : Int) - ev.cur.length)
    let r := finalIdsToFetch.foldl (processFetchItem download)
      ({ st with cache := ev.cache }, ev.cur, [])
    ⟨r.1, idsToFetch, finalIdsToFetch, ev.evicted, ev.stalled, ev.cur, r.2.2⟩

/--
One item of the `runLiveCache` loop of `useLiveCacheManager` in
`provider.tsx`. The accumulator carries the state and `fetchedIdsRef`:

* a thrown download → `cacheErrors[id]` set (not re-raised);
* `undefined` → `id` added to `missingFileIds` (`[...new Set([...prev, id])]`);
* `null` → `setUri(id, null)` (deletes any cached entry), id marked fetched,
  dropped from missing;
* a blob → `setUri(id, dataUri)`, id marked fetched, dropped from missing.
-/
def processLiveItem (download : FileId → Except String Fetched)
    (acc : St × List FileId) (id : FileId) : St × List FileId :=
  let st := acc.1
  let fetched := acc.2
  match download id with
  | .error e =>
      ({ st with cacheErrors := AList.set st.cacheErrors id e }, fetched)
  | .ok .notFound =>
      ({ st with missing := addMissing st.missing id }, fetched)
  | .ok .deleted =>
      ({ st with
          cache := setCacheUri st.cache id none,
          missing := st.missing.filter (fun p => p ≠ id) },
        fetched ++ [id])
  | .ok (.blob d) =>
      ({ st with
          cache := setCacheUri st.cache id (some d),
          missing := st.missing.filter (fun p => p ≠ id) },
        fetched ++ [id])

/-- The Live Mount Fetcher (`useLiveCacheManager` of `provider.tsx`) with
`isOnline = true`: `fetchIds = mountedFileIds.slice(0, maxMounted)` (whole
list when `maxMounted` is `undefined`), filtered to ids neither cached, nor
pending, nor already attempted this session (`fetchedIdsRef`), then fetched
one by one. Note: it never consults `maxCache` and never evicts. -/
def runLiveCache (download : FileId → Except String Fetched)
    (mountedIds cachedIds uploadIds fetchedAlready : List FileId)
    (maxMounted : Option Nat) (st : St) : St × List FileId :=
  let fetchIds := match maxMounted with
    | some m => mountedIds.take m
    | none => mountedIds
  let filteredFetchIds := fetchIds.filter
    (fun id => !cachedIds.contains id && !uploadIds.contains id &&
      !fetchedAlready.contains id)
  filteredFetchIds.foldl (processLiveItem download) (st, fetchedAlready)

/-- The in-memory state of `useMountTracker` (`useMountTracker.tsx`):
the `mounted` list, the `recent` queue, and the `refCount` map. -/
structure MountSt where
  mounted : List FileId
  recent : List FileId
  refCount : AList Nat
deriving DecidableEq, Repr

/-- `refCount.current.get(id) || 0`. -/
def refGet (m : AList Nat) (id : FileId) : Nat :=
  (AList.get m id).getD 0

/-- `register(id)` of `useMountTracker`:

```
const currentCount = refCount.current.get(id) || 0;
refCount.current.set(id, currentCount + 1);
if (currentCount === 0) {
  setMounted((prev) => { if (!prev.includes(id)) return [...prev, id].slice(0, maxMounted); return prev; });
}
setRecent((prev) => { const filtered = prev.filter((x) => x !== id); return [id, ...filtered].slice(0, maxRecent); });
```
-/
def registerMount (maxMounted maxRecent : Nat) (id : FileId) (s : MountSt) :
    MountSt :=
  let currentCount := refGet s.refCount id
  let refCount' := AList.set s.refCount id (currentCount + 1)
  let mounted' :=
    if currentCount = 0 then
      if s.mounted.contains id then s.mounted
      else (s.mounted ++ [id]).take maxMounted
    else s.mounted
  let recent' := (id :: s.recent.filter (fun x => x ≠ id)).take maxRecent
  ⟨mounted', recent', refCount'⟩

/-- The unregister closure `register` returns:

```
const current = refCount.current.get(id) || 0;
if (current <= 1) { refCount.current.delete(id); setMounted((prev) => prev.filter((x) => x !== id)); }
else { refCount.current.set(id, current - 1); }
```
-/
def unregisterMount (id : FileId) (s : MountSt) : MountSt :=
  let current := refGet s.refCount id
  if current ≤ 1 then
    ⟨s.mounted.filter (fun x => x ≠ id), s.recent, AList.del s.refCount id⟩
  else
    ⟨s.mounted, s.recent, AList.set s.refCount id (current - 1)⟩

/-- One Mount Tracker call: `register(id)`, the unregister closure for `id`,
or `reset()`. -/
inductive MountOp where
  | reg (id : FileId)
  | unreg (id : FileId)
  | reset
deriving DecidableEq, Repr

/-- Apply one Mount Tracker operation (`reset` clears all three fields). -/
def applyMountOp (maxMounted maxRecent : Nat) (s : MountSt) :
    MountOp → MountSt
  | .reg id => registerMount maxMounted maxRecent id s
  | .unreg id => unregisterMount id s
  | .reset => ⟨[], [], []⟩

/-- Run a sequence of Mount Tracker calls from the initial state
(`mounted = []`, `recent = []`, empty `refCount`). -/
def runMountOps (maxMounted maxRecent : Nat) (ops : List MountOp) : MountSt :=
  ops.foldl (applyMountOp maxMounted maxRecent) ⟨[], [], []⟩

/-- The id an operation touches, for counting distinct ids of a sequence. -/
def MountOp.ids : MountOp → List FileId
  | .reg id => [id]
  | .unreg id => [id]
  | .reset => []

/-- The Mount Tracker invariant relative to a universe `S` of ids: the
mounted list is duplicate-free, membership coincides with a positive
reference count, and only ids from `S` are ever counted. -/
def MountInv (S : List FileId) (s : MountSt) : Prop :=
  s.mounted.Nodup ∧ (∀ x, x ∈ s.mounted ↔ 0 < refGet s.refCount x) ∧
    (∀ x, 0 < refGet s.refCount x → x ∈ S)

/-- Outcome of one `useItem.setItem` attempt in `provider.tsx`. -/
inductive AddOutcome where
  /-- The `useMemo` guard made `setItem` `undefined` (`Disabled`):
  there is no setter to call, so no add can happen. -/
  | unavailable
  /-- `verifyDataUriAgainstMeta` threw; `setUploadUri` was never reached. -/
  | raised (msg : String)
  /-- `setUploadUri(...)` ran; the new upload store is carried. -/
  | accepted (upload : UploadStore)
deriving DecidableEq, Repr

/--
`useItem.setItem` from `provider.tsx`:

```
const setItem = useMemo(() =>
  fileId !== undefined && setUploadUri && getFileRecord && uploadFileIds &&
  uploadFileIds.length < maxUploadCache
    ? async (data) => setUploadUri(await verifyDataUriAgainstMeta(await getActionValue(data, null), await getFileRecord(fileId)))
    : undefined, ...);
```

When the pending store already holds `maxUploadCache` ids the whole setter
is `undefined` — no error is thrown, the add is simply impossible. `verify`
is the oracle for `verifyDataUriAgainstMeta` (`some msg` = it threw). -/
def setItem (uploadIds : List FileId) (maxUploadCache : Nat)
    (verify : Option String) (upload : UploadStore) (id : FileId)
    (data : Option DataUri) : AddOutcome :=
  if uploadIds.length < maxUploadCache then
    match verify with
    | some e => .raised e
    | none =>
        .accepted (match data with
          | some d => AList.set upload id (some d)
          | none => AList.del upload id)
  else .unavailable

/-- Whether a `setItem` attempt raised a hard error to the caller. -/
def AddOutcome.isHardError : AddOutcome → Bool
  | .raised _ => true
  | _ => false

namespace AList

theorem get_set {α : Type} (l : AList α) (k k' : FileId) (v : α) :
    get (set l k v) k' = if k = k' then some v else get l k' := by
  induction l with
  | nil => simp [get, set]
  | cons e t ih =>
    obtain ⟨a, w⟩ := e
    by_cases hak : a = k
    · subst hak
      simp only [set, if_pos rfl]
      by_cases hk' : a = k' <;> simp [get, hk']
    · simp only [set, if_neg hak]
      by_cases hk' : a = k'
      · subst hk'
        have hka : ¬ k = a := fun h => hak h.symm
        simp [get, hka]
      · simp [get, hk', ih]

theorem get_del {α : Type} (l : AList α) (k k' : FileId) :
    get (del l k) k' = if k' = k then none else get l k' := by
  induction l with
  | nil => simp [get, del]
  | cons e t ih =>
    obtain ⟨a, w⟩ := e
    by_cases hak : a = k
    · subst hak
      have hs : del ((a, w) :: t) a = del t a := by simp [del]
      rw [hs, ih]
      by_cases hk' : k' = a
      · simp [hk']
      · have hak' : ¬ a = k' := fun h => hk' h.symm
        simp [get, hk', hak']
    · simp only [del, if_neg hak]
      by_cases hk' : a = k'
      · subst hk'
        have hka : ¬ a = k := hak
        simp [get, hka]
      · simp [get, hk', ih]

theorem keys_del {α : Type} (l : AList α) (k : FileId) :
    keys (del l k) = (keys l).filter (fun a => a ≠ k) := by
  induction l with
  | nil => rfl
  | cons e t ih =>
    obtain ⟨a, w⟩ := e
    by_cases hak : a = k
    · simp [del, keys, List.filter_cons, hak]
      simpa [keys] using ih
    · simp [del, keys, List.filter_cons, hak]
      simpa [keys] using ih

theorem keys_set_subset {α : Type} (l : AList α) (k : FileId) (v : α) :
    keys (set l k v) ⊆ keys l ++ [k] := by
  induction l with
  | nil => simp [keys, set]
  | cons e t ih =>
    obtain ⟨a, w⟩ := e
    by_cases hak : a = k
    · subst hak
      have hs : set ((a, w) :: t) a v = (a, v) :: t := by simp [set]
      rw [hs]
      intro x hx
      simp only [keys, List.map_cons, List.mem_cons] at hx
      rcases hx with hx | hx
      · simp [keys, hx]
      · simp [keys, hx]
    · have hs : set ((a, w) :: t) k v = (a, w) :: set t k v := by simp [set, hak]
      rw [hs]
      intro x hx
      simp only [keys, List.map_cons, List.mem_cons] at hx
      rcases hx with hx | hx
      · simp [keys, hx]
      · have h2 := ih (by simpa [keys] using hx)
        simp only [keys, List.map_cons, List.cons_append, List.mem_cons]
        exact Or.inr (by simpa [keys] using h2)

theorem keys_set_nodup {α : Type} (l : AList α) (k : FileId) (v : α)
    (h : (keys l).Nodup) : (keys (set l k v)).Nodup := by
  induction l with
  | nil => simp [keys, set]
  | cons e t ih =>
    obtain ⟨a, w⟩ := e
    by_cases hak : a = k
    · subst hak
      have hs : set ((a, w) :: t) a v = (a, v) :: t := by simp [set]
      rw [hs]
      simpa [keys] using h
    · have hs : set ((a, w) :: t) k v = (a, w) :: set t k v := by simp [set, hak]
      rw [hs]
      simp only [keys, List.map_cons, List.nodup_cons] at h ⊢
      refine ⟨fun hmem => ?_, ih h.2⟩
      have h2 := keys_set_subset t k v (by simpa [keys] using hmem)
      simp only [List.mem_append, List.mem_singleton] at h2
      rcases h2 with h' | h'
      · exact h.1 (by simpa [keys] using h')
      · exact hak h'

theorem keys_set_length_le {α : Type} (l : AList α) (k : FileId) (v : α) :
    (keys (set l k v)).length ≤ (keys l).length + 1 := by
  induction l with
  | nil => simp [keys, set]
  | cons e t ih =>
    obtain ⟨a, w⟩ := e
    by_cases hak : a = k
    · subst hak
      have hs : set ((a, w) :: t) a v = (a, v) :: t := by simp [set]
      simp [hs, keys]
    · have hs : set ((a, w) :: t) k v = (a, w) :: set t k v := by simp [set, hak]
      rw [hs]
      simpa [keys] using ih

theorem keys_del_length_le {α : Type} (l : AList α) (k : FileId) :
    (keys (del l k)).length ≤ (keys l).length := by
  rw [keys_del]
  simpa using List.length_filter_le _ (keys l)

end AList

theorem mem_of_getLast?_some {α : Type} {l : List α} {e : α}
    (h : l.getLast? = some e) : e ∈ l := by
  have hm : e ∈ l.getLast? := by simp [h, Option.mem_def]
  obtain ⟨hne, he⟩ := List.mem_getLast?_eq_getLast hm
  rw [he]
  exact List.getLast_mem hne

/-- A successful eviction returns a cached id that is neither mounted nor
recent, and the new store is the old one with exactly that key deleted. -/
theorem evictCacheItem_some {cachedIds mountedIds recentIds : List FileId}
    {cache : CacheStore} {e : FileId} {cache' : CacheStore}
    (h : evictCacheItem cachedIds mountedIds recentIds cache = (some e, cache')) :
    e ∈ cachedIds ∧ e ∉ mountedIds ∧ e ∉ recentIds ∧
      cache' = AList.del cache e := by
  unfold evictCacheItem at h
  rcases hl : (cachedIds.filter
      (fun id => !mountedIds.contains id && !recentIds.contains id)).getLast? with
    _ | e'
  · simp only [hl] at h
    simp at h
  · simp only [hl, Prod.mk.injEq, Option.some.injEq] at h
    obtain ⟨rfl, rfl⟩ := h
    have hmem := mem_of_getLast?_some hl
    rw [List.mem_filter] at hmem
    obtain ⟨hc1, hc2⟩ := hmem
    simp only [Bool.and_eq_true, Bool.not_eq_true'] at hc2
    simp at hc2
    exact ⟨hc1, hc2.1, hc2.2, rfl⟩

/-- Membership in the implementation's candidate list. -/
theorem mem_evictionCandidates {cachedIds mountedIds recentIds : List FileId}
    {x : FileId} :
    x ∈ evictionCandidates cachedIds mountedIds recentIds ↔
      x ∈ cachedIds ∧ x ∉ mountedIds ∧ x ∉ recentIds := by
  simp [evictionCandidates, List.mem_filter, and_assoc]

/-- A stalling eviction (`null` returned) leaves the cache store untouched. -/
theorem evictCacheItem_none {cachedIds mountedIds recentIds : List FileId}
    {cache c' : CacheStore}
    (h : evictCacheItem cachedIds mountedIds recentIds cache = (none, c')) :
    c' = cache ∧
      (evictionCandidates cachedIds mountedIds recentIds).getLast? = none := by
  unfold evictCacheItem at h
  rcases hl : (cachedIds.filter
      (fun id => !mountedIds.contains id && !recentIds.contains id)).getLast? with
    _ | e'
  · simp only [hl, Prod.mk.injEq] at h
    exact ⟨h.2.symm, hl⟩
  · simp only [hl] at h
    simp at h

theorem length_filter_lt_of_mem {e : FileId} {l : List FileId} (h : e ∈ l) :
    (l.filter (fun x => x ≠ e)).length < l.length := by
  apply List.length_filter_lt_length_iff_exists.mpr
  exact ⟨e, h, by simp⟩

theorem evictLoop_cur_length_le (mountedIds recentIds : List FileId) :
    ∀ (fuel : Nat) (cur : List FileId) (cache : CacheStore),
      (evictLoop mountedIds recentIds fuel cur cache).cur.length ≤ cur.length := by
  intro fuel
  induction fuel with
  | zero => intro cur cache; simp [evictLoop]
  | succ n ih =>
    intro cur cache
    unfold evictLoop
    rcases hev : evictCacheItem cur mountedIds recentIds cache with ⟨oe, cache'⟩
    cases oe with
    | none => simp
    | some e =>
      simp only
      exact le_trans (ih _ _) (List.length_filter_le _ _)

theorem evictLoop_not_stalled (mountedIds recentIds : List FileId) :
    ∀ (fuel : Nat) (cur : List FileId) (cache : CacheStore),
      (evictLoop mountedIds recentIds fuel cur cache).stalled = false →
      (evictLoop mountedIds recentIds fuel cur cache).evicted.length = fuel ∧
      (evictLoop mountedIds recentIds fuel cur cache).cur.length + fuel ≤
        cur.length := by
  intro fuel
  induction fuel with
  | zero => intro cur cache _; simp [evictLoop]
  | succ n ih =>
    intro cur cache hst
    unfold evictLoop at hst ⊢
    rcases hev : evictCacheItem cur mountedIds recentIds cache with ⟨oe, cache'⟩
    rw [hev] at hst
    cases oe with
    | none => simp at hst
    | some e =>
      simp only at hst ⊢
      have hmem := (evictCacheItem_some hev).1
      have hlt := length_filter_lt_of_mem hmem
      obtain ⟨h1, h2⟩ := ih (cur.filter (fun cachedId => cachedId ≠ e)) cache' hst
      constructor
      · simpa using h1
      · omega

theorem evictLoop_calls_le (mountedIds recentIds : List FileId) :
    ∀ (fuel : Nat) (cur : List FileId) (cache : CacheStore),
      (evictLoop mountedIds recentIds fuel cur cache).calls ≤ fuel := by
  intro fuel
  induction fuel with
  | zero => intro cur cache; simp [evictLoop, EvictLoopOut.calls]
  | succ n ih =>
    intro cur cache
    unfold evictLoop
    rcases hev : evictCacheItem cur mountedIds recentIds cache with ⟨oe, cache'⟩
    cases oe with
    | none => simp [EvictLoopOut.calls]
    | some e =>
      simp only [EvictLoopOut.calls, List.length_cons]
      have := ih (cur.filter (fun cachedId => cachedId ≠ e)) cache'
      simp only [EvictLoopOut.calls] at this
      omega

theorem evictLoop_keys (mountedIds recentIds : List FileId) :
    ∀ (fuel : Nat) (cur : List FileId) (cache : CacheStore),
      cur = AList.keys cache →
      (evictLoop mountedIds recentIds fuel cur cache).cur =
        AList.keys (evictLoop mountedIds recentIds fuel cur cache).cache := by
  intro fuel
  induction fuel with
  | zero => intro cur cache h; simpa [evictLoop] using h
  | succ n ih =>
    intro cur cache h
    unfold evictLoop
    rcases hev : evictCacheItem cur mountedIds recentIds cache with ⟨oe, cache'⟩
    cases oe with
    | none =>
      simp only
      rw [(evictCacheItem_none hev).1]
      exact h
    | some e =>
      simp only
      apply ih
      rw [(evictCacheItem_some hev).2.2.2, AList.keys_del, h]

theorem evictLoop_keys_nodup (mountedIds recentIds : List FileId) :
    ∀ (fuel : Nat) (cur : List FileId) (cache : CacheStore),
      (AList.keys cache).Nodup →
      (AList.keys (evictLoop mountedIds recentIds fuel cur cache).cache).Nodup := by
  intro fuel
  induction fuel with
  | zero => intro cur cache h; simpa [evictLoop] using h
  | succ n ih =>
    intro cur cache h
    unfold evictLoop
    rcases hev : evictCacheItem cur mountedIds recentIds cache with ⟨oe, cache'⟩
    cases oe with
    | none =>
      simp only
      rw [(evictCacheItem_none hev).1]
      exact h
    | some e =>
      simp only
      apply ih
      rw [(evictCacheItem_some hev).2.2.2, AList.keys_del]
      exact h.filter _

theorem jsSliceTo_of_nonneg {α : Type} (l : List α) (e : Int) (h : 0 ≤ e) :
    jsSliceTo l e = l.take e.toNat := by
  simp [jsSliceTo, not_lt.mpr h]

theorem jsSliceTo_all {α : Type} (l : List α) (e : Int)
    (h : (l.length : Int) ≤ e) : jsSliceTo l e = l := by
  have h0 : 0 ≤ e := le_trans (by positivity) h
  rw [jsSliceTo_of_nonneg _ _ h0]
  apply List.take_of_length_le
  omega

theorem processFetchItem_upload (download : FileId → Except String Fetched)
    (acc : St × List FileId × List String) (id : FileId) :
    (processFetchItem download acc id).1.upload = acc.1.upload := by
  unfold processFetchItem
  cases download id with
  | error e => rfl
  | ok f => cases f <;> rfl

theorem fetchFold_upload (download : FileId → Except String Fetched)
    (l : List FileId) :
    ∀ acc, (l.foldl (processFetchItem download) acc).1.upload = acc.1.upload := by
  induction l with
  | nil => intro acc; rfl
  | cons i t ih =>
    intro acc
    rw [List.foldl_cons, ih, processFetchItem_upload]

theorem processFetchItem_cache_stable (download : FileId → Except String Fetched)
    (acc : St × List FileId × List String) (i good : FileId) (d : DataUri)
    (hdl : download good = Except.ok (Fetched.blob d))
    (h : AList.get acc.1.cache good = some d) :
    AList.get (processFetchItem download acc i).1.cache good = some d := by
  by_cases hig : i = good
  · subst hig
    unfold processFetchItem
    rw [hdl]
    simp [AList.get_set]
  · unfold processFetchItem
    cases download i with
    | error e => simpa using h
    | ok f =>
      cases f with
      | blob d' => simpa [AList.get_set, hig] using h
      | deleted => simpa using h
      | notFound => simpa using h

theorem fetchFold_cache_stable (download : FileId → Except String Fetched)
    (l : List FileId) :
    ∀ (acc : St × List FileId × List String) (good : FileId) (d : DataUri),
      download good = Except.ok (Fetched.blob d) →
      AList.get acc.1.cache good = some d →
      AList.get ((l.foldl (processFetchItem download) acc)).1.cache good =
        some d := by
  induction l with
  | nil => intro acc good d _ h; exact h
  | cons i t ih =>
    intro acc good d hdl h
    rw [List.foldl_cons]
    exact ih _ _ _ hdl (processFetchItem_cache_stable download acc i good d hdl h)

theorem fetchFold_cache_of_mem (download : FileId → Except String Fetched)
    (l : List FileId) :
    ∀ (acc : St × List FileId × List String) (good : FileId) (d : DataUri),
      download good = Except.ok (Fetched.blob d) → good ∈ l →
      AList.get ((l.foldl (processFetchItem download) acc)).1.cache good =
        some d := by
  induction l with
  | nil => intro acc good d _ hm; exact absurd hm (List.not_mem_nil good)
  | cons i t ih =>
    intro acc good d hdl hm
    rw [List.foldl_cons]
    rcases List.mem_cons.mp hm with rfl | hm'
    · apply fetchFold_cache_stable download t _ _ _ hdl
      unfold processFetchItem
      rw [hdl]
      simp [AList.get_set]
    · exact ih _ _ _ hdl hm'

theorem processFetchItem_errs_mono (download : FileId → Except String Fetched)
    (acc : St × List FileId × List String) (i : FileId) (x : String)
    (h : x ∈ acc.2.2) : x ∈ (processFetchItem download acc i).2.2 := by
  unfold processFetchItem
  cases download i with
  | error e => simpa using Or.inl h
  | ok f => cases f <;> simpa using h

theorem fetchFold_errs_mono (download : FileId → Except String Fetched)
    (l : List FileId) :
    ∀ acc (x : String), x ∈ acc.2.2 →
      x ∈ ((l.foldl (processFetchItem download) acc)).2.2 := by
  induction l with
  | nil => intro acc x h; exact h
  | cons i t ih =>
    intro acc x h
    rw [List.foldl_cons]
    exact ih _ _ (processFetchItem_errs_mono download acc i x h)

theorem fetchFold_err_of_mem (download : FileId → Except String Fetched)
    (l : List FileId) :
    ∀ acc (bad : FileId) (e : String),
      download bad = Except.error e → bad ∈ l →
      e ∈ ((l.foldl (processFetchItem download) acc)).2.2 := by
  induction l with
  | nil => intro acc bad e _ hm; exact absurd hm (List.not_mem_nil bad)
  | cons i t ih =>
    intro acc bad e hdl hm
    rw [List.foldl_cons]
    rcases List.mem_cons.mp hm with rfl | hm'
    · apply fetchFold_errs_mono download t
      unfold processFetchItem
      rw [hdl]
      simp
    · exact ih _ _ _ hdl hm'

theorem processPendingItem_notFound
    (upload : FileId → Option DataUri → Except String Unit)
    (download : FileId → Except String Fetched) (st : St) (id : FileId)
    (hu : AList.get st.upload id = none) :
    processPendingItem upload download st id =
      ({ st with uploadErrors := AList.set st.uploadErrors id pendingNotFoundMsg },
        some pendingNotFoundMsg) := by
  unfold processPendingItem
  rw [hu]

theorem processPendingItem_promotes
    (upload : FileId → Option DataUri → Except String Unit)
    (download : FileId → Except String Fetched) (st : St) (id : FileId)
    (blob : DataUri)
    (hu : AList.get st.upload id = some (some blob))
    (hup : upload id (some blob) = Except.ok ())
    (hdl : download id = Except.ok (Fetched.blob blob)) :
    processPendingItem upload download st id =
      ({ st with
          cache := AList.set st.cache id blob,
          upload := AList.del st.upload id,
          missing := st.missing.filter (fun p => p ≠ id),
          uploadErrors := AList.del st.uploadErrors id }, none) := by
  simp only [processPendingItem, hu, hup, hdl]
  simp [fetchedMatches, setCacheUri]

theorem processPendingItem_mismatch
    (upload : FileId → Option DataUri → Except String Unit)
    (download : FileId → Except String Fetched) (st : St) (id : FileId)
    (v : Option DataUri) (f : Fetched)
    (hu : AList.get st.upload id = some v)
    (hup : upload id v = Except.ok ())
    (hdl : download id = Except.ok f)
    (hmm : fetchedMatches f v = false) :
    processPendingItem upload download st id =
      ({ st with uploadErrors :=
          AList.set st.uploadErrors id verificationMismatchMsg },
        some verificationMismatchMsg) := by
  simp only [processPendingItem, hu, hup, hdl, hmm]
  simp

theorem processPendingItem_frame
    (upload : FileId → Option DataUri → Except String Unit)
    (download : FileId → Except String Fetched) (st : St) (id id' : FileId)
    (h : id' ≠ id) :
    AList.get (processPendingItem upload download st id').1.upload id =
        AList.get st.upload id ∧
      AList.get (processPendingItem upload download st id').1.cache id =
        AList.get st.cache id ∧
      AList.get (processPendingItem upload download st id').1.uploadErrors id =
        AList.get st.uploadErrors id := by
  rcases hg : AList.get st.upload id' with _ | v
  · simp only [processPendingItem, hg]
    simp [AList.get_set, h]
  · rcases hup2 : upload id' v with e | u
    · simp only [processPendingItem, hg, hup2]
      simp [AList.get_set, h]
    · rcases hdl2 : download id' with e | f
      · simp only [processPendingItem, hg, hup2, hdl2]
        simp [AList.get_set, h]
      · by_cases hm : fetchedMatches f v
        · simp only [processPendingItem, hg, hup2, hdl2, hm, if_true]
          cases v with
          | some d =>
            simp [setCacheUri, AList.get_set, AList.get_del, h, Ne.symm h]
          | none =>
            simp [setCacheUri, AList.get_set, AList.get_del, h, Ne.symm h]
        · rw [Bool.not_eq_true] at hm
          simp only [processPendingItem, hg, hup2, hdl2, hm]
          simp [AList.get_set, h]

theorem processPendingItem_upload_none
    (upload : FileId → Option DataUri → Except String Unit)
    (download : FileId → Except String Fetched) (st : St) (id id' : FileId)
    (h : AList.get st.upload id = none) :
    AList.get (processPendingItem upload download st id').1.upload id = none := by
  by_cases hii : id' = id
  · subst hii
    rw [processPendingItem_notFound upload download st id' h]
    exact h
  · rw [(processPendingItem_frame upload download st id id' hii).1]
    exact h

theorem pendingFold_frame
    (upload : FileId → Option DataUri → Except String Unit)
    (download : FileId → Except String Fetched) (l : List FileId) :
    ∀ (st : St) (errs : List String) (id : FileId), id ∉ l →
      AList.get ((l.foldl (pendingStep upload download) (st, errs))).1.upload id =
          AList.get st.upload id ∧
        AList.get ((l.foldl (pendingStep upload download) (st, errs))).1.cache id =
          AList.get st.cache id ∧
        AList.get
            ((l.foldl (pendingStep upload download) (st, errs))).1.uploadErrors id =
          AList.get st.uploadErrors id := by
  induction l with
  | nil => intro st errs id _; exact ⟨rfl, rfl, rfl⟩
  | cons i t ih =>
    intro st errs id h
    have hit : id ∉ t := fun hm => h (List.mem_cons_of_mem _ hm)
    have hne : i ≠ id := fun he => h (he ▸ List.mem_cons_self i t)
    rw [List.foldl_cons]
    have hp := processPendingItem_frame upload download st id i hne
    have hstep :
        pendingStep upload download (st, errs) i =
          ((processPendingItem upload download st i).1,
            errs ++ (processPendingItem upload download st i).2.toList) := rfl
    rw [hstep]
    obtain ⟨h1, h2, h3⟩ := ih (processPendingItem upload download st i).1
      (errs ++ (processPendingItem upload download st i).2.toList) id hit
    exact ⟨h1.trans hp.1, h2.trans hp.2.1, h3.trans hp.2.2⟩

theorem pendingFold_upload_none
    (upload : FileId → Option DataUri → Except String Unit)
    (download : FileId → Except String Fetched) (l : List FileId) :
    ∀ (st : St) (errs : List String) (id : FileId),
      AList.get st.upload id = none →
      AList.get ((l.foldl (pendingStep upload download) (st, errs))).1.upload id =
        none := by
  induction l with
  | nil => intro st errs id h; exact h
  | cons i t ih =>
    intro st errs id h
    rw [List.foldl_cons]
    exact ih _ _ _ (processPendingItem_upload_none upload download st id i h)

theorem pendingFold_errs_shift
    (upload : FileId → Option DataUri → Except String Unit)
    (download : FileId → Except String Fetched) (l : List FileId) :
    ∀ (st : St) (errs : List String),
      l.foldl (pendingStep upload download) (st, errs) =
        ((l.foldl (pendingStep upload download) (st, [])).1,
          errs ++ (l.foldl (pendingStep upload download) (st, [])).2) := by
  induction l with
  | nil => intro st errs; simp
  | cons i t ih =>
    intro st errs
    rw [List.foldl_cons, List.foldl_cons]
    have hstep : ∀ es : List String,
        pendingStep upload download (st, es) i =
          ((processPendingItem upload download st i).1,
            es ++ (processPendingItem upload download st i).2.toList) := fun _ => rfl
    rw [hstep errs, hstep []]
    rw [ih ((processPendingItem upload download st i).1)
      (errs ++ (processPendingItem upload download st i).2.toList),
      ih ((processPendingItem upload download st i).1)
      ([] ++ (processPendingItem upload download st i).2.toList)]
    simp

theorem pendingFold_err_of_notFound
    (upload : FileId → Option DataUri → Except String Unit)
    (download : FileId → Except String Fetched) (l : List FileId) :
    ∀ (st : St) (errs : List String) (id : FileId),
      AList.get st.upload id = none → id ∈ l →
      pendingNotFoundMsg ∈
        ((l.foldl (pendingStep upload download) (st, errs))).2 := by
  induction l with
  | nil => intro st errs id _ hm; exact absurd hm (List.not_mem_nil id)
  | cons i t ih =>
    intro st errs id h hm
    rw [List.foldl_cons]
    rcases List.mem_cons.mp hm with rfl | hm'
    · have hstep :
          pendingStep upload download (st, errs) id =
            ((processPendingItem upload download st id).1,
              errs ++ [pendingNotFoundMsg]) := by
        unfold pendingStep
        rw [processPendingItem_notFound upload download st id h]
        rfl
      rw [hstep, pendingFold_errs_shift]
      simp
    · rw [show pendingStep upload download (st, errs) i =
          ((processPendingItem upload download st i).1,
            errs ++ (processPendingItem upload download st i).2.toList) from rfl]
      exact ih _ _ _
        (processPendingItem_upload_none upload download st id i h) hm'

theorem pendingRun_promotes
    (upload : FileId → Option DataUri → Except String Unit)
    (download : FileId → Except String Fetched)
    (l1 l2 : List FileId) (st : St) (id : FileId) (blob : DataUri)
    (h1 : id ∉ l1) (h2 : id ∉ l2)
    (hu : AList.get st.upload id = some (some blob))
    (hup : upload id (some blob) = Except.ok ())
    (hdl : download id = Except.ok (Fetched.blob blob)) :
    AList.get (syncPendingFiles upload download (l1 ++ id :: l2) st).1.cache id =
        some blob ∧
      AList.get (syncPendingFiles upload download (l1 ++ id :: l2) st).1.upload
          id = none ∧
      AList.get
          (syncPendingFiles upload download (l1 ++ id :: l2) st).1.uploadErrors
          id = none := by
  unfold syncPendingFiles
  rw [List.foldl_append, List.foldl_cons]
  obtain ⟨f1, f2, f3⟩ := pendingFold_frame upload download l1 st [] id h1
  set A := l1.foldl (pendingStep upload download) (st, []) with hA
  have hstep : pendingStep upload download A id =
      ((processPendingItem upload download A.1 id).1,
        A.2 ++ (processPendingItem upload download A.1 id).2.toList) := rfl
  rw [hstep,
    processPendingItem_promotes upload download A.1 id blob (f1.trans hu) hup hdl]
  obtain ⟨g1, g2, g3⟩ := pendingFold_frame upload download l2
    ({ A.1 with
        cache := AList.set A.1.cache id blob,
        upload := AList.del A.1.upload id,
        missing := A.1.missing.filter (fun p => p ≠ id),
        uploadErrors := AList.del A.1.uploadErrors id })
    (A.2 ++ (Option.toList (none : Option String))) id h2
  refine ⟨?_, ?_, ?_⟩
  · exact g2.trans (by simp [AList.get_set])
  · exact g1.trans (by simp [AList.get_del])
  · exact g3.trans (by simp [AList.get_del])

theorem pendingRun_mismatch
    (upload : FileId → Option DataUri → Except String Unit)
    (download : FileId → Except String Fetched)
    (l1 l2 : List FileId) (st : St) (id : FileId) (v : Option DataUri)
    (f : Fetched)
    (h1 : id ∉ l1) (h2 : id ∉ l2)
    (hu : AList.get st.upload id = some v)
    (hup : upload id v = Except.ok ())
    (hdl : download id = Except.ok f)
    (hmm : fetchedMatches f v = false) :
    AList.get (syncPendingFiles upload download (l1 ++ id :: l2) st).1.upload
        id = some v ∧
      AList.get
          (syncPendingFiles upload download (l1 ++ id :: l2) st).1.uploadErrors
          id = some verificationMismatchMsg ∧
      AList.get (syncPendingFiles upload download (l1 ++ id :: l2) st).1.cache
          id = AList.get st.cache id := by
  unfold syncPendingFiles
  rw [List.foldl_append, List.foldl_cons]
  obtain ⟨f1, f2, f3⟩ := pendingFold_frame upload download l1 st [] id h1
  set A := l1.foldl (pendingStep upload download) (st, []) with hA
  have hstep : pendingStep upload download A id =
      ((processPendingItem upload download A.1 id).1,
        A.2 ++ (processPendingItem upload download A.1 id).2.toList) := rfl
  rw [hstep,
    processPendingItem_mismatch upload download A.1 id v f (f1.trans hu) hup hdl
      hmm]
  obtain ⟨g1, g2, g3⟩ := pendingFold_frame upload download l2
    ({ A.1 with
        uploadErrors := AList.set A.1.uploadErrors id verificationMismatchMsg })
    (A.2 ++ (Option.toList (some verificationMismatchMsg))) id h2
  refine ⟨?_, ?_, ?_⟩
  · exact g1.trans (f1.trans hu)
  · exact g3.trans (by simp [AList.get_set])
  · exact g2.trans f2

theorem refGet_set (m : AList Nat) (k k' : FileId) (v : Nat) :
    refGet (AList.set m k v) k' = if k = k' then v else refGet m k' := by
  unfold refGet
  rw [AList.get_set]
  by_cases h : k = k' <;> simp [h]

theorem refGet_del (m : AList Nat) (k k' : FileId) :
    refGet (AList.del m k) k' = if k' = k then 0 else refGet m k' := by
  unfold refGet
  rw [AList.get_del]
  by_cases h : k' = k <;> simp [h]

theorem registerMount_eq_zero (maxMounted maxRecent : Nat) (id : FileId)
    (s : MountSt) (hc : refGet s.refCount id = 0)
    (hnm : s.mounted.contains id = false) :
    registerMount maxMounted maxRecent id s =
      ⟨(s.mounted ++ [id]).take maxMounted,
        (id :: s.recent.filter (fun x => x ≠ id)).take maxRecent,
        AList.set s.refCount id 1⟩ := by
  have hnm2 : id ∉ s.mounted := by
    have hnm3 := hnm
    simp at hnm3
    exact hnm3
  unfold registerMount
  rw [hc]
  simp [hnm, hnm2]

theorem registerMount_eq_pos (maxMounted maxRecent : Nat) (id : FileId)
    (s : MountSt) (hc : refGet s.refCount id ≠ 0) :
    registerMount maxMounted maxRecent id s =
      ⟨s.mounted,
        (id :: s.recent.filter (fun x => x ≠ id)).take maxRecent,
        AList.set s.refCount id (refGet s.refCount id + 1)⟩ := by
  unfold registerMount
  simp [hc]

theorem unregisterMount_eq_le (id : FileId) (s : MountSt)
    (hc : refGet s.refCount id ≤ 1) :
    unregisterMount id s =
      ⟨s.mounted.filter (fun x => x ≠ id), s.recent,
        AList.del s.refCount id⟩ := by
  unfold unregisterMount
  simp [hc]

theorem unregisterMount_eq_gt (id : FileId) (s : MountSt)
    (hc : ¬ refGet s.refCount id ≤ 1) :
    unregisterMount id s =
      ⟨s.mounted, s.recent,
        AList.set s.refCount id (refGet s.refCount id - 1)⟩ := by
  unfold unregisterMount
  simp [hc]

theorem mountInv_step (maxMounted maxRecent : Nat) (S : List FileId)
    (hlen : S.length ≤ maxMounted) (s : MountSt) (op : MountOp)
    (hop : ∀ i ∈ MountOp.ids op, i ∈ S) (hinv : MountInv S s) :
    MountInv S (applyMountOp maxMounted maxRecent s op) := by
  obtain ⟨hnd, hiff, hsub⟩ := hinv
  have hmS : ∀ x ∈ s.mounted, x ∈ S := fun x hx => hsub x ((hiff x).mp hx)
  cases op with
  | reset =>
    refine ⟨List.nodup_nil, fun x => ?_, fun x hx => ?_⟩
    · simp [applyMountOp, refGet, AList.get]
    · simp [applyMountOp, refGet, AList.get] at hx
  | reg id =>
    have hid : id ∈ S := hop id (by simp [MountOp.ids])
    show MountInv S (registerMount maxMounted maxRecent id s)
    by_cases hc : refGet s.refCount id = 0
    · have hnm : id ∉ s.mounted := fun hm => by
        have := (hiff id).mp hm
        omega
      have hcontains : s.mounted.contains id = false := by
        rw [← Bool.not_eq_true]
        intro hb
        exact hnm (List.elem_iff.mp hb)
      have happnd : (s.mounted ++ [id]).Nodup := by
        rw [List.nodup_append]
        exact ⟨hnd, List.nodup_singleton id, by
          intro a ha hb
          simp only [List.mem_singleton] at hb
          exact hnm (hb ▸ ha)⟩
      have hsubS : s.mounted ++ [id] ⊆ S := by
        intro a ha
        rcases List.mem_append.mp ha with h | h
        · exact hmS a h
        · simp only [List.mem_singleton] at h
          exact h ▸ hid
      have hlen2 : (s.mounted ++ [id]).length ≤ maxMounted :=
        le_trans (List.Subperm.length_le (List.subperm_of_subset happnd hsubS))
          hlen
      rw [registerMount_eq_zero maxMounted maxRecent id s hc hcontains]
      rw [show ((s.mounted ++ [id]).take maxMounted) = s.mounted ++ [id] from
        List.take_of_length_le hlen2]
      refine ⟨happnd, fun x => ?_, fun x hx => ?_⟩
      · show x ∈ s.mounted ++ [id] ↔ 0 < refGet (AList.set s.refCount id 1) x
        rw [refGet_set]
        by_cases hx : id = x
        · subst hx
          simp
        · have hxm : x ∈ s.mounted ++ [id] ↔ x ∈ s.mounted := by
            constructor
            · intro hm
              rcases List.mem_append.mp hm with h | h
              · exact h
              · simp only [List.mem_singleton] at h
                exact absurd h.symm hx
            · exact fun h => List.mem_append.mpr (Or.inl h)
          rw [hxm, if_neg hx]
          exact hiff x
      · rw [show refGet (⟨s.mounted ++ [id],
            (id :: s.recent.filter (fun y => y ≠ id)).take maxRecent,
            AList.set s.refCount id 1⟩ : MountSt).refCount x =
            refGet (AList.set s.refCount id 1) x from rfl, refGet_set] at hx
        by_cases hxi : id = x
        · exact hxi ▸ hid
        · rw [if_neg hxi] at hx
          exact hsub x hx
    · show MountInv S (registerMount maxMounted maxRecent id s)
      rw [registerMount_eq_pos maxMounted maxRecent id s hc]
      refine ⟨hnd, fun x => ?_, fun x hx => ?_⟩
      · show x ∈ s.mounted ↔
          0 < refGet (AList.set s.refCount id (refGet s.refCount id + 1)) x
        rw [refGet_set]
        by_cases hx : id = x
        · subst hx
          rw [if_pos rfl]
          constructor
          · intro _; omega
          · intro _
            exact (hiff id).mpr (by omega)
        · rw [if_neg hx]
          exact hiff x
      · rw [show refGet (⟨s.mounted,
            (id :: s.recent.filter (fun y => y ≠ id)).take maxRecent,
            AList.set s.refCount id (refGet s.refCount id + 1)⟩ :
              MountSt).refCount x =
            refGet (AList.set s.refCount id (refGet s.refCount id + 1)) x
            from rfl, refGet_set] at hx
        by_cases hxi : id = x
        · exact hxi ▸ hid
        · rw [if_neg hxi] at hx
          exact hsub x hx
  | unreg id =>
    show MountInv S (unregisterMount id s)
    by_cases hc : refGet s.refCount id ≤ 1
    · rw [unregisterMount_eq_le id s hc]
      refine ⟨hnd.filter _, fun x => ?_, fun x hx => ?_⟩
      · show x ∈ s.mounted.filter (fun y => y ≠ id) ↔
          0 < refGet (AList.del s.refCount id) x
        rw [refGet_del]
        by_cases hx : x = id
        · subst hx
          simp [List.mem_filter]
        · rw [if_neg hx]
          have hxm : x ∈ s.mounted.filter (fun y => y ≠ id) ↔
              x ∈ s.mounted := by
            simp [List.mem_filter, hx]
          rw [hxm]
          exact hiff x
      · rw [show refGet (⟨s.mounted.filter (fun y => y ≠ id), s.recent,
            AList.del s.refCount id⟩ : MountSt).refCount x =
            refGet (AList.del s.refCount id) x from rfl, refGet_del] at hx
        by_cases hxi : x = id
        · rw [if_pos hxi] at hx
          omega
        · rw [if_neg hxi] at hx
          exact hsub x hx
    · rw [unregisterMount_eq_gt id s hc]
      refine ⟨hnd, fun x => ?_, fun x hx => ?_⟩
      · show x ∈ s.mounted ↔
          0 < refGet (AList.set s.refCount id (refGet s.refCount id - 1)) x
        rw [refGet_set]
        by_cases hx : id = x
        · subst hx
          rw [if_pos rfl]
          constructor
          · intro _; omega
          · intro _
            exact (hiff id).mpr (by omega)
        · rw [if_neg hx]
          exact hiff x
      · rw [show refGet (⟨s.mounted, s.recent,
            AList.set s.refCount id (refGet s.refCount id - 1)⟩ :
              MountSt).refCount x =
            refGet (AList.set s.refCount id (refGet s.refCount id - 1)) x
            from rfl, refGet_set] at hx
        by_cases hxi : id = x
        · subst hxi
          exact hsub id (by omega)
        · rw [if_neg hxi] at hx
          exact hsub x hx

theorem mountInv_run (maxMounted maxRecent : Nat) (S : List FileId)
    (hlen : S.length ≤ maxMounted) (ops : List MountOp) :
    ∀ s : MountSt, (∀ op ∈ ops, ∀ i ∈ MountOp.ids op, i ∈ S) → MountInv S s →
      MountInv S (ops.foldl (applyMountOp maxMounted maxRecent) s) := by
  induction ops with
  | nil => intro s _ hinv; exact hinv
  | cons op t ih =>
    intro s hops hinv
    rw [List.foldl_cons]
    exact ih _ (fun o ho => hops o (List.mem_cons_of_mem _ ho))
      (mountInv_step maxMounted maxRecent S hlen s op
        (hops op (List.mem_cons_self _ _)) hinv)

theorem mountInv_init (S : List FileId) : MountInv S ⟨[], [], []⟩ := by
  refine ⟨List.nodup_nil, fun x => ?_, fun x hx => ?_⟩
  · simp [refGet, AList.get]
  · simp [refGet, AList.get] at hx

theorem nodup_split {l : List FileId} {id : FileId} (hnd : l.Nodup)
    (hm : id ∈ l) : ∃ l1 l2, l = l1 ++ id :: l2 ∧ id ∉ l1 ∧ id ∉ l2 := by
  obtain ⟨l1, l2, rfl⟩ := List.append_of_mem hm
  rw [List.nodup_append] at hnd
  refine ⟨l1, l2, rfl, ?_, ?_⟩
  · intro h
    exact hnd.2.2 h (List.mem_cons_self id l2)
  · have h2 := hnd.2.1
    rw [List.nodup_cons] at h2
    exact h2.1

theorem evictCacheItem_eq (cachedIds mountedIds recentIds : List FileId)
    (cache : CacheStore) :
    evictCacheItem cachedIds mountedIds recentIds cache =
      match (evictionCandidates cachedIds mountedIds recentIds).getLast? with
      | none => (none, cache)
      | some evictId => (some evictId, setCacheUri cache evictId none) := rfl

theorem processFetchItem_bound (download : FileId → Except String Fetched)
    (acc : St × List FileId × List String) (id : FileId) :
    (AList.keys acc.1.cache ⊆ acc.2.1 → (AList.keys acc.1.cache).Nodup →
      AList.keys (processFetchItem download acc id).1.cache ⊆
          (processFetchItem download acc id).2.1 ∧
        (AList.keys (processFetchItem download acc id).1.cache).Nodup) ∧
      (processFetchItem download acc id).2.1.length ≤ acc.2.1.length + 1 := by
  unfold processFetchItem
  cases download id with
  | error e => exact ⟨fun hs hn => ⟨hs, hn⟩, by simp⟩
  | ok f =>
    cases f with
    | blob d =>
      refine ⟨fun hs hn => ⟨?_, AList.keys_set_nodup _ _ _ hn⟩, by simp⟩
      intro x hx
      have := AList.keys_set_subset acc.1.cache id d hx
      rcases List.mem_append.mp this with h | h
      · exact List.mem_append.mpr (Or.inl (hs h))
      · exact List.mem_append.mpr (Or.inr h)
    | deleted => exact ⟨fun hs hn => ⟨hs, hn⟩, by simp⟩
    | notFound => exact ⟨fun hs hn => ⟨hs, hn⟩, by simp⟩

theorem fetchFold_bound (download : FileId → Except String Fetched)
    (l : List FileId) :
    ∀ (acc : St × List FileId × List String),
      AList.keys acc.1.cache ⊆ acc.2.1 → (AList.keys acc.1.cache).Nodup →
      AList.keys ((l.foldl (processFetchItem download) acc)).1.cache ⊆
          ((l.foldl (processFetchItem download) acc)).2.1 ∧
        (AList.keys ((l.foldl (processFetchItem download) acc)).1.cache).Nodup ∧
        ((l.foldl (processFetchItem download) acc)).2.1.length ≤
          acc.2.1.length + l.length := by
  induction l with
  | nil => intro acc hs hn; exact ⟨hs, hn, by simp⟩
  | cons i t ih =>
    intro acc hs hn
    rw [List.foldl_cons]
    obtain ⟨hstep, hlen⟩ := processFetchItem_bound download acc i
    obtain ⟨hs', hn'⟩ := hstep hs hn
    obtain ⟨g1, g2, g3⟩ := ih (processFetchItem download acc i) hs' hn'
    refine ⟨g1, g2, ?_⟩
    simp only [List.length_cons]
    omega

theorem refresh_plan_main_facts (mountedIds recentIds cachedIds : List FileId)
    (cache : CacheStore) (maxCache fuel : Nat) (F : List FileId)
    (hle : cachedIds.length ≤ maxCache)
    (hfuel : fuel = cachedIds.length + F.length - maxCache) :
    ((evictLoop mountedIds recentIds fuel cachedIds cache).stalled = false →
      jsSliceTo F ((maxCache : Int) -
          (evictLoop mountedIds recentIds fuel cachedIds cache).cur.length) =
          F ∧
        (evictLoop mountedIds recentIds fuel cachedIds cache).evicted.length =
          fuel) ∧
      ((evictLoop mountedIds recentIds fuel cachedIds cache).stalled = true →
        (evictLoop mountedIds recentIds fuel cachedIds
            cache).evicted.length + 1 ≤ fuel ∧
          (evictLoop mountedIds recentIds fuel cachedIds cache).cur.length +
            (jsSliceTo F ((maxCache : Int) - (evictLoop mountedIds recentIds
              fuel cachedIds cache).cur.length)).length ≤ maxCache) := by
  constructor
  · intro hst
    obtain ⟨h1, h2⟩ := evictLoop_not_stalled mountedIds recentIds fuel
      cachedIds cache hst
    refine ⟨jsSliceTo_all _ _ ?_, h1⟩
    omega
  · intro hst
    have hcur := evictLoop_cur_length_le mountedIds recentIds fuel cachedIds
      cache
    have hc := evictLoop_calls_le mountedIds recentIds fuel cachedIds cache
    unfold EvictLoopOut.calls at hc
    rw [hst] at hc
    refine ⟨by simpa using hc, ?_⟩
    have h0 : (0 : Int) ≤ (maxCache : Int) -
        (evictLoop mountedIds recentIds fuel cachedIds cache).cur.length := by
      omega
    rw [jsSliceTo_of_nonneg _ _ h0, List.length_take]
    omega

theorem refresh_bound_main_facts (download : FileId → Except String Fetched)
    (mountedIds recentIds cachedIds : List FileId) (maxCache fuel : Nat)
    (F : List FileId) (st : St)
    (hkeys : cachedIds = AList.keys st.cache)
    (hnd : (AList.keys st.cache).Nodup)
    (hle : cachedIds.length ≤ maxCache) :
    (AList.keys (List.foldl (processFetchItem download)
        ({ st with cache := (evictLoop mountedIds recentIds fuel cachedIds
            st.cache).cache },
          (evictLoop mountedIds recentIds fuel cachedIds st.cache).cur,
          ([] : List String))
        (jsSliceTo F ((maxCache : Int) - (evictLoop mountedIds recentIds fuel
          cachedIds st.cache).cur.length))).1.cache).length ≤ maxCache := by
  have hcur := evictLoop_cur_length_le mountedIds recentIds fuel cachedIds
    st.cache
  have hk := evictLoop_keys mountedIds recentIds fuel cachedIds st.cache hkeys
  have hknd := evictLoop_keys_nodup mountedIds recentIds fuel cachedIds
    st.cache hnd
  have h0 : (0 : Int) ≤ (maxCache : Int) -
      (evictLoop mountedIds recentIds fuel cachedIds st.cache).cur.length := by
    omega
  rw [jsSliceTo_of_nonneg _ _ h0]
  obtain ⟨hsub, hndf, hlenf⟩ := fetchFold_bound download
    (F.take (((maxCache : Int) - (evictLoop mountedIds recentIds fuel
      cachedIds st.cache).cur.length).toNat))
    ({ st with cache := (evictLoop mountedIds recentIds fuel cachedIds
        st.cache).cache },
      (evictLoop mountedIds recentIds fuel cachedIds st.cache).cur,
      ([] : List String))
    (by intro x hx; exact hk ▸ hx) hknd
  have hsp := List.Subperm.length_le (List.subperm_of_subset hndf hsub)
  have hb : (({ st with cache := (evictLoop mountedIds recentIds fuel
      cachedIds st.cache).cache },
      (evictLoop mountedIds recentIds fuel cachedIds st.cache).cur,
      ([] : List String))).2.1.length =
      (evictLoop mountedIds recentIds fuel cachedIds st.cache).cur.length :=
    rfl
  have hflen : (F.take (((maxCache : Int) - (evictLoop mountedIds recentIds
      fuel cachedIds st.cache).cur.length).toNat)).length ≤
      ((maxCache : Int) - (evictLoop mountedIds recentIds fuel cachedIds
        st.cache).cur.length).toNat := by
    rw [List.length_take]
    omega
  omega

theorem syncLatestFiles_empty (gci : Nat → Option (List FileId))
    (download : FileId → Except String Fetched)
    (cachedIds mountedIds recentIds : List FileId) (maxCache : Nat) (st : St)
    (h : ((recentIds ++ (gci (maxCache * 3 / 4)).getD []).filter
        (fun id => !cachedIds.contains id)).take (maxCache * 3 / 4) = []) :
    syncLatestFiles gci download cachedIds mountedIds recentIds maxCache st =
      ⟨st, [], [], [], false, cachedIds, []⟩ := by
  simp only [syncLatestFiles, h]
  simp

theorem syncLatestFiles_main (gci : Nat → Option (List FileId))
    (download : FileId → Except String Fetched)
    (cachedIds mountedIds recentIds : List FileId) (maxCache : Nat) (st : St)
    (hne : (((recentIds ++ (gci (maxCache * 3 / 4)).getD []).filter
        (fun id => !cachedIds.contains id)).take (maxCache * 3 / 4)).isEmpty =
      false) :
    syncLatestFiles gci download cachedIds mountedIds recentIds maxCache st =
      (let idsToFetch := ((recentIds ++ (gci (maxCache * 3 / 4)).getD
          []).filter (fun id => !cachedIds.contains id)).take
          (maxCache * 3 / 4)
       let ev := evictLoop mountedIds recentIds
         (cachedIds.length + idsToFetch.length - maxCache) cachedIds st.cache
       let finalIdsToFetch := jsSliceTo idsToFetch
         ((maxCache : Int) - ev.cur.length)
       let r := List.foldl (processFetchItem download)
         ({ st with cache := ev.cache }, ev.cur, ([] : List String))
         finalIdsToFetch
       ⟨r.1, idsToFetch, finalIdsToFetch, ev.evicted, ev.stalled, ev.cur,
         r.2.2⟩) := by
  simp only [syncLatestFiles, hne]
  simp

/-- C7: a call to the eviction operation with an empty candidate set returns
`none` and deletes nothing from the cache store; otherwise it
deterministically selects exactly the last candidate in the cache's
enumeration order, deletes that one id's entry (all other entries keep their
values), and returns that id; and the refresh pass's eviction loop treats a
`none` return as "cannot make room": it breaks out without evicting further
and without raising. -/
theorem evictOne_spec (cachedIds mountedIds recentIds : List FileId)
    (cache : CacheStore) :
    (evictionCandidates cachedIds mountedIds recentIds = [] →
      evictCacheItem cachedIds mountedIds recentIds cache = (none, cache)) ∧
      (∀ e, (evictionCandidates cachedIds mountedIds recentIds).getLast? =
          some e →
        evictCacheItem cachedIds mountedIds recentIds cache =
            (some e, AList.del cache e) ∧
          AList.get (AList.del cache e) e = none ∧
          (∀ x, x ≠ e → AList.get (AList.del cache e) x = AList.get cache x)) ∧
      (∀ fuel cur,
        evictCacheItem cur mountedIds recentIds cache = (none, cache) →
        evictLoop mountedIds recentIds (fuel + 1) cur cache =
          ⟨cur, cache, [], true⟩) := by
  refine ⟨fun h => ?_, fun e he => ?_, fun fuel cur h => ?_⟩
  · rw [evictCacheItem_eq, h]
    simp
  · rw [evictCacheItem_eq, he]
    refine ⟨rfl, ?_, fun x hx => ?_⟩
    · rw [AList.get_del]
      simp
    · rw [AList.get_del, if_neg hx]
  · unfold evictLoop
    rw [h]

/-- C1 counterexample: call the eviction operation with
`cachedIds = ["p"]`, `pendingIds = ["p"]`, `mountedIds = []`,
`recentIds = []`. The implementation's candidate set is `["p"]` — not the
spec's `cachedIds` minus the union of the three priority sets, which is
`[]` — and the evicted id `"p"` is a member of PendingSet. -/
theorem eviction_pending_cex :
    (evictCacheItem ["p"] [] [] [("p", "u")]).1 = some "p" ∧
      "p" ∈ (["p"] : List FileId) ∧
      evictionCandidates ["p"] [] [] = ["p"] ∧
      specEvictionCandidates ["p"] ["p"] [] [] = [] := by decide

/-- C1 (amended): the eviction candidate set is `cachedIds` minus the union
of MountedSet and RecentQueue only — the pending list is not consulted, so a
pending id that sits in the cache store can be evicted from it. An evicted
id is nevertheless never mounted or recent, and the eviction pass (the
refresh pass containing the eviction loop) never touches the pending byte
store, so for every id in PendingSet the pending-store entry holding its
blob survives every eviction pass. -/
theorem eviction_priority_amended :
    (∀ (cachedIds mountedIds recentIds : List FileId) (x : FileId),
        x ∈ evictionCandidates cachedIds mountedIds recentIds ↔
          x ∈ cachedIds ∧ x ∉ mountedIds ∧ x ∉ recentIds) ∧
      (∀ (cachedIds mountedIds recentIds : List FileId) (cache : CacheStore)
          (e : FileId) (cache' : CacheStore),
        evictCacheItem cachedIds mountedIds recentIds cache =
            (some e, cache') →
          e ∉ mountedIds ∧ e ∉ recentIds) ∧
      (∀ (gci : Nat → Option (List FileId))
          (download : FileId → Except String Fetched)
          (cachedIds mountedIds recentIds : List FileId) (maxCache : Nat)
          (st : St),
        (syncLatestFiles gci download cachedIds mountedIds recentIds maxCache
            st).st.upload = st.upload) := by
  refine ⟨fun c m r x => mem_evictionCandidates, fun c m r cache e cache' h =>
    ⟨(evictCacheItem_some h).2.1, (evictCacheItem_some h).2.2.1⟩,
    fun gci download c m r maxCache st => ?_⟩
  simp only [syncLatestFiles]
  split
  · rfl
  · rw [fetchFold_upload]

/-- Witness for the C1 amended theorem at concrete inputs. -/
theorem eviction_priority_amended_witness :
    ("b" ∈ evictionCandidates ["a", "b"] ["a"] [] ↔
        "b" ∈ (["a", "b"] : List FileId) ∧ "b" ∉ (["a"] : List FileId) ∧
          "b" ∉ ([] : List FileId)) ∧
      ("b" ∉ (["a"] : List FileId) ∧ "b" ∉ ([] : List FileId)) ∧
      (syncLatestFiles (fun _ => some ["x"])
          (fun _ => Except.ok (Fetched.blob "d")) ["a", "b"] ["a"] [] 2
          ⟨[("a", "1"), ("b", "2")], [("p", some "u")], [], [], []⟩).st.upload =
        [("p", some "u")] :=
  ⟨eviction_priority_amended.1 ["a", "b"] ["a"] [] "b",
    eviction_priority_amended.2.1 ["a", "b"] ["a"] [] [("a", "1"), ("b", "2")]
      "b" [("a", "1")] (by decide),
    eviction_priority_amended.2.2 (fun _ => some ["x"])
      (fun _ => Except.ok (Fetched.blob "d")) ["a", "b"] ["a"] [] 2
      ⟨[("a", "1"), ("b", "2")], [("p", some "u")], [], [], []⟩⟩

/-- Witness for C7 at concrete inputs: one successful eviction (last
unprotected candidate `"b"` deleted) and one empty-candidate call. -/
theorem evictOne_spec_witness :
    evictCacheItem ["a", "b", "c"] ["a"] ["c"]
        [("a", "1"), ("b", "2"), ("c", "3")] =
        (some "b", [("a", "1"), ("c", "3")]) ∧
      evictCacheItem ["a"] ["a"] [] [("a", "1")] = (none, [("a", "1")]) := by
  constructor
  · have h := (evictOne_spec ["a", "b", "c"] ["a"] ["c"]
      [("a", "1"), ("b", "2"), ("c", "3")]).2.1 "b" (by decide)
    exact h.1.trans (by decide)
  · exact (evictOne_spec ["a"] ["a"] [] [("a", "1")]).1 (by decide)

/-- C8 counterexample: with `maxMounted = 1`, after `register("a")` then
`register("b")` the id `"b"` has reference count 1 > 0 yet is not a member
of MountedSet — the `slice(0, maxMounted)` in `setMounted` dropped it. -/
theorem mount_refcount_cex :
    0 < refGet (runMountOps 1 10
        [MountOp.reg "a", MountOp.reg "b"]).refCount "b" ∧
      "b" ∉ (runMountOps 1 10 [MountOp.reg "a", MountOp.reg "b"]).mounted := by
  decide

/-- C8 (amended): membership in MountedSet coincides with a positive
reference count after every sequence of register/unregister/reset calls,
provided all ids of the sequence come from at most `maxMounted` distinct
ids (so the `slice(0, maxMounted)` truncation never drops a registered id). -/
theorem mount_refcount_amended (maxMounted maxRecent : Nat) (S : List FileId)
    (ops : List MountOp) (hS : S.length ≤ maxMounted)
    (hops : ∀ op ∈ ops, ∀ i ∈ MountOp.ids op, i ∈ S) (id : FileId) :
    id ∈ (runMountOps maxMounted maxRecent ops).mounted ↔
      0 < refGet (runMountOps maxMounted maxRecent ops).refCount id :=
  (mountInv_run maxMounted maxRecent S hS ops ⟨[], [], []⟩ hops
    (mountInv_init S)).2.1 id

/-- Witness for the C8 amended theorem: two distinct ids, `maxMounted = 2`,
sequence register a, register b, unregister a. -/
theorem mount_refcount_amended_witness :
    "b" ∈ (runMountOps 2 10
        [MountOp.reg "a", MountOp.reg "b", MountOp.unreg "a"]).mounted ↔
      0 < refGet (runMountOps 2 10
        [MountOp.reg "a", MountOp.reg "b", MountOp.unreg "a"]).refCount "b" :=
  mount_refcount_amended 2 10 ["a", "b"]
    [MountOp.reg "a", MountOp.reg "b", MountOp.unreg "a"] (by decide)
    (by decide) "b"

/-- C9 counterexample: with `maxUploadCache = 2` and two pending ids, the
`useItem.setItem` setter is `undefined` (`Disabled`) — the add is
impossible, but no hard error is raised to the caller. -/
theorem setItem_cap_cex :
    setItem ["a", "b"] 2 none [("a", some "1"), ("b", some "2")] "c"
        (some "3") = AddOutcome.unavailable ∧
      (setItem ["a", "b"] 2 none [("a", some "1"), ("b", some "2")] "c"
        (some "3")).isHardError = false := by decide

/-- C9 (amended): when the pending store already holds `maxUploadCache` ids,
`setItem` is `Disabled` (`undefined`): the add is rejected because there is
no setter to call — no error is raised — and PendingSet cannot grow beyond
the cap through `setItem`: any accepted add leaves at most `maxUploadCache`
pending ids. -/
theorem setItem_cap_amended (uploadIds : List FileId) (maxUploadCache : Nat)
    (verify : Option String) (upload : UploadStore) (id : FileId)
    (data : Option DataUri) :
    (maxUploadCache ≤ uploadIds.length →
      setItem uploadIds maxUploadCache verify upload id data =
        AddOutcome.unavailable) ∧
      (∀ upload', setItem uploadIds maxUploadCache verify upload id data =
          AddOutcome.accepted upload' →
        uploadIds.length = (AList.keys upload).length →
        (AList.keys upload').length ≤ maxUploadCache) := by
  constructor
  · intro h
    unfold setItem
    rw [if_neg (by omega)]
  · intro upload' hacc hkeys
    unfold setItem at hacc
    by_cases hlt : uploadIds.length < maxUploadCache
    · rw [if_pos hlt] at hacc
      cases verify with
      | some e => simp at hacc
      | none =>
        simp only [AddOutcome.accepted.injEq] at hacc
        cases data with
        | some d =>
          rw [← hacc]
          show (AList.keys (AList.set upload id (some d))).length ≤ maxUploadCache
          have := AList.keys_set_length_le upload id (some d)
          omega
        | none =>
          rw [← hacc]
          show (AList.keys (AList.del upload id)).length ≤ maxUploadCache
          have := AList.keys_del_length_le upload id
          omega
    · rw [if_neg hlt] at hacc
      simp at hacc

/-- Witness for the C9 amended theorem: a rejected add at the cap and an
accepted add below it. -/
theorem setItem_cap_amended_witness :
    setItem ["a", "b"] 2 none [("a", some "1"), ("b", some "2")] "c"
        (some "3") = AddOutcome.unavailable ∧
      (AList.keys [("a", some "1"), ("b", some "2")]).length ≤ 2 :=
  ⟨(setItem_cap_amended ["a", "b"] 2 none
      [("a", some "1"), ("b", some "2")] "c" (some "3")).1 (by decide),
    (setItem_cap_amended ["a"] 2 none [("a", some "1")] "b" (some "2")).2
      [("a", some "1"), ("b", some "2")] (by decide) (by decide)⟩

/-- C2: for a pending id whose upload succeeds and whose re-downloaded copy
compares equal to the uploaded copy, the upload synchronizer writes that
exact blob into the cache store, deletes the id's entry from the pending
store, and leaves no UploadErrors entry for that id. -/
theorem upload_verified_promotion
    (upload : FileId → Option DataUri → Except String Unit)
    (download : FileId → Except String Fetched)
    (pendingIds : List FileId) (st : St) (id : FileId) (blob : DataUri)
    (hnd : pendingIds.Nodup) (hmem : id ∈ pendingIds)
    (hu : AList.get st.upload id = some (some blob))
    (hup : upload id (some blob) = Except.ok ())
    (hdl : download id = Except.ok (Fetched.blob blob)) :
    AList.get (syncPendingFiles upload download pendingIds st).1.cache id =
        some blob ∧
      AList.get (syncPendingFiles upload download pendingIds st).1.upload id =
        none ∧
      AList.get
          (syncPendingFiles upload download pendingIds st).1.uploadErrors id =
        none := by
  obtain ⟨l1, l2, rfl, h1, h2⟩ := nodup_split hnd hmem
  exact pendingRun_promotes upload download l1 l2 st id blob h1 h2 hu hup hdl

/-- Witness for C2: one pending id `"p"` with blob `"u"`, upload succeeds,
re-download returns the same blob. -/
theorem upload_verified_promotion_witness :
    AList.get (syncPendingFiles (fun _ _ => Except.ok ())
        (fun _ => Except.ok (Fetched.blob "u")) ["p"]
        ⟨[], [("p", some "u")], [("p", "old error")], [], []⟩).1.cache "p" =
        some "u" ∧
      AList.get (syncPendingFiles (fun _ _ => Except.ok ())
        (fun _ => Except.ok (Fetched.blob "u")) ["p"]
        ⟨[], [("p", some "u")], [("p", "old error")], [], []⟩).1.upload "p" =
        none ∧
      AList.get (syncPendingFiles (fun _ _ => Except.ok ())
        (fun _ => Except.ok (Fetched.blob "u")) ["p"]
        ⟨[], [("p", some "u")], [("p", "old error")], [], []⟩).1.uploadErrors
        "p" = none :=
  upload_verified_promotion (fun _ _ => Except.ok ())
    (fun _ => Except.ok (Fetched.blob "u")) ["p"]
    ⟨[], [("p", some "u")], [("p", "old error")], [], []⟩ "p" "u" (by decide)
    (by decide) (by decide) rfl rfl

/-- C3: for a pending id whose re-downloaded copy differs from the uploaded
copy, the upload synchronizer records a verification failure in UploadErrors
for that id, leaves the id's blob in the pending store, and performs no
write of that id into the cache store. -/
theorem upload_mismatch_retains
    (upload : FileId → Option DataUri → Except String Unit)
    (download : FileId → Except String Fetched)
    (pendingIds : List FileId) (st : St) (id : FileId) (blob : DataUri)
    (f : Fetched)
    (hnd : pendingIds.Nodup) (hmem : id ∈ pendingIds)
    (hu : AList.get st.upload id = some (some blob))
    (hup : upload id (some blob) = Except.ok ())
    (hdl : download id = Except.ok f)
    (hmm : fetchedMatches f (some blob) = false) :
    AList.get (syncPendingFiles upload download pendingIds st).1.upload id =
        some (some blob) ∧
      AList.get
          (syncPendingFiles upload download pendingIds st).1.uploadErrors id =
        some verificationMismatchMsg ∧
      AList.get (syncPendingFiles upload download pendingIds st).1.cache id =
        AList.get st.cache id := by
  obtain ⟨l1, l2, rfl, h1, h2⟩ := nodup_split hnd hmem
  exact pendingRun_mismatch upload download l1 l2 st id (some blob) f h1 h2 hu
    hup hdl hmm

/-- Witness for C3: pending blob `"u"`, re-download returns a different blob
`"w"`; the pending entry survives, the error is recorded, the cache entry
for `"p"` is untouched. -/
theorem upload_mismatch_retains_witness :
    AList.get (syncPendingFiles (fun _ _ => Except.ok ())
        (fun _ => Except.ok (Fetched.blob "w")) ["p"]
        ⟨[], [("p", some "u")], [], [], []⟩).1.upload "p" = some (some "u") ∧
      AList.get (syncPendingFiles (fun _ _ => Except.ok ())
        (fun _ => Except.ok (Fetched.blob "w")) ["p"]
        ⟨[], [("p", some "u")], [], [], []⟩).1.uploadErrors "p" =
        some verificationMismatchMsg ∧
      AList.get (syncPendingFiles (fun _ _ => Except.ok ())
        (fun _ => Except.ok (Fetched.blob "w")) ["p"]
        ⟨[], [("p", some "u")], [], [], []⟩).1.cache "p" =
        AList.get (⟨[], [("p", some "u")], [], [], []⟩ : St).cache "p" :=
  upload_mismatch_retains (fun _ _ => Except.ok ())
    (fun _ => Except.ok (Fetched.blob "w")) ["p"]
    ⟨[], [("p", some "u")], [], [], []⟩ "p" "u" (Fetched.blob "w") (by decide)
    (by decide) (by decide) rfl rfl (by decide)

/-- C5: in both batch passes every item is attempted regardless of sibling
failures. Upload pass: a pending id missing from the upload store rejects
with a not-found failure, a later (or earlier) good id is still promoted,
and one aggregate error carrying the per-item failure is raised. Fetch pass
(the batch of the cache refresher): a throwing download records its error
and the aggregate carries it, while a good id's blob still lands in the
cache store. -/
theorem batch_fail_slow :
    (∀ (upload : FileId → Option DataUri → Except String Unit)
        (download : FileId → Except String Fetched) (st : St)
        (pendingIds : List FileId) (bad good : FileId) (blob : DataUri),
      pendingIds.Nodup → bad ∈ pendingIds → good ∈ pendingIds →
      AList.get st.upload bad = none →
      AList.get st.upload good = some (some blob) →
      upload good (some blob) = Except.ok () →
      download good = Except.ok (Fetched.blob blob) →
      pendingNotFoundMsg ∈ (syncPendingFiles upload download pendingIds st).2 ∧
        aggregateOf (syncPendingFiles upload download pendingIds st).2 =
          some (syncPendingFiles upload download pendingIds st).2 ∧
        AList.get (syncPendingFiles upload download pendingIds st).1.cache
            good = some blob ∧
        AList.get (syncPendingFiles upload download pendingIds st).1.upload
            good = none) ∧
      (∀ (download : FileId → Except String Fetched)
          (acc : St × List FileId × List String) (ids : List FileId)
          (bad good : FileId) (d : DataUri) (e : String),
        download bad = Except.error e →
        download good = Except.ok (Fetched.blob d) →
        bad ∈ ids → good ∈ ids →
        e ∈ ((ids.foldl (processFetchItem download) acc)).2.2 ∧
          aggregateOf ((ids.foldl (processFetchItem download) acc)).2.2 =
            some ((ids.foldl (processFetchItem download) acc)).2.2 ∧
          AList.get ((ids.foldl (processFetchItem download) acc)).1.cache
            good = some d) := by
  constructor
  · intro upload download st pendingIds bad good blob hnd hbad hgood hubad
      hugood hup hdl
    have herr : pendingNotFoundMsg ∈
        (syncPendingFiles upload download pendingIds st).2 :=
      pendingFold_err_of_notFound upload download pendingIds st [] bad hubad
        hbad
    have hne : (syncPendingFiles upload download pendingIds st).2 ≠ [] :=
      List.ne_nil_of_mem herr
    obtain ⟨l1, l2, heq, h1, h2⟩ := nodup_split hnd hgood
    have hprom := pendingRun_promotes upload download l1 l2 st good blob h1 h2
      hugood hup hdl
    rw [← heq] at hprom
    refine ⟨herr, ?_, hprom.1, hprom.2.1⟩
    unfold aggregateOf
    rw [if_neg ?_]
    intro hempty
    exact hne (List.isEmpty_iff.mp hempty)
  · intro download acc ids bad good d e hdlb hdlg hbad hgood
    have herr : e ∈ ((ids.foldl (processFetchItem download) acc)).2.2 :=
      fetchFold_err_of_mem download ids acc bad e hdlb hbad
    have hne : ((ids.foldl (processFetchItem download) acc)).2.2 ≠ [] :=
      List.ne_nil_of_mem herr
    refine ⟨herr, ?_, fetchFold_cache_of_mem download ids acc good d hdlg hgood⟩
    unfold aggregateOf
    rw [if_neg ?_]
    intro hempty
    exact hne (List.isEmpty_iff.mp hempty)

/-- Witness for C5: upload pass with bad id `"b"` (absent from the upload
store) before good id `"g"`; fetch batch with bad id `"b"` (download throws)
before good id `"g"`. -/
theorem batch_fail_slow_witness :
    (pendingNotFoundMsg ∈ (syncPendingFiles (fun _ _ => Except.ok ())
        (fun _ => Except.ok (Fetched.blob "u")) ["b", "g"]
        ⟨[], [("g", some "u")], [], [], []⟩).2 ∧
      aggregateOf (syncPendingFiles (fun _ _ => Except.ok ())
          (fun _ => Except.ok (Fetched.blob "u")) ["b", "g"]
          ⟨[], [("g", some "u")], [], [], []⟩).2 =
        some ((syncPendingFiles (fun _ _ => Except.ok ())
          (fun _ => Except.ok (Fetched.blob "u")) ["b", "g"]
          ⟨[], [("g", some "u")], [], [], []⟩).2) ∧
      AList.get (syncPendingFiles (fun _ _ => Except.ok ())
          (fun _ => Except.ok (Fetched.blob "u")) ["b", "g"]
          ⟨[], [("g", some "u")], [], [], []⟩).1.cache "g" = some "u" ∧
      AList.get (syncPendingFiles (fun _ _ => Except.ok ())
          (fun _ => Except.ok (Fetched.blob "u")) ["b", "g"]
          ⟨[], [("g", some "u")], [], [], []⟩).1.upload "g" = none) ∧
    ("boom" ∈ (List.foldl (processFetchItem
          (fun id => if id = "b" then Except.error "boom"
            else Except.ok (Fetched.blob "d")))
          ((⟨[], [], [], [], []⟩ : St), ([] : List FileId), ([] : List String))
          ["b", "g"]).2.2 ∧
      AList.get (List.foldl (processFetchItem
          (fun id => if id = "b" then Except.error "boom"
            else Except.ok (Fetched.blob "d")))
          ((⟨[], [], [], [], []⟩ : St), ([] : List FileId), ([] : List String))
          ["b", "g"]).1.cache "g" = some "d") := by
  constructor
  · exact batch_fail_slow.1 (fun _ _ => Except.ok ())
      (fun _ => Except.ok (Fetched.blob "u"))
      ⟨[], [("g", some "u")], [], [], []⟩ ["b", "g"] "b" "g" "u" (by decide)
      (by decide) (by decide) (by decide) (by decide) rfl rfl
  · have h := batch_fail_slow.2
      (fun id => if id = "b" then Except.error "boom"
        else Except.ok (Fetched.blob "d"))
      ((⟨[], [], [], [], []⟩ : St), ([] : List FileId), ([] : List String))
      ["b", "g"] "b" "g" "d" "boom"
      (by simp) (by simp) (by decide) (by decide)
    exact ⟨h.1, h.2.2⟩

/-- C10: when every id of `recentIds ++ cacheableIds` is already cached (the
filtered fetch-candidate list is empty), the refresh pass returns
immediately: the whole state — cache store, pending store, MissingSet and
both error maps — is unchanged, the eviction policy is never invoked
(`evicted = []`, `stalled = false`), nothing is fetched and no aggregate
error is produced; no hypothesis relates `cachedIds` to `maxCache`, so this
holds even when the cached ids exceed the bound. -/
theorem refresh_noop_when_all_cached (gci : Nat → Option (List FileId))
    (download : FileId → Except String Fetched)
    (cachedIds mountedIds recentIds : List FileId) (maxCache : Nat) (st : St)
    (h : ((recentIds ++ (gci (maxCache * 3 / 4)).getD []).filter
        (fun id => !cachedIds.contains id)).take (maxCache * 3 / 4) = []) :
    syncLatestFiles gci download cachedIds mountedIds recentIds maxCache st =
        ⟨st, [], [], [], false, cachedIds, []⟩ ∧
      aggregateOf (syncLatestFiles gci download cachedIds mountedIds recentIds
        maxCache st).errors = none := by
  have he := syncLatestFiles_empty gci download cachedIds mountedIds recentIds
    maxCache st h
  refine ⟨he, ?_⟩
  rw [he]
  rfl

/-- Witness for C10: `maxCache = 2`, three cached ids (over the bound), every
recent/cacheable id already cached. -/
theorem refresh_noop_when_all_cached_witness :
    syncLatestFiles (fun _ => some ["b"])
        (fun _ => Except.ok (Fetched.blob "d")) ["a", "b", "c"] [] ["a"] 2
        ⟨[("a", "1"), ("b", "2"), ("c", "3")], [], [], [], [("m")]⟩ =
        ⟨⟨[("a", "1"), ("b", "2"), ("c", "3")], [], [], [], [("m")]⟩, [], [],
          [], false, ["a", "b", "c"], []⟩ ∧
      aggregateOf (syncLatestFiles (fun _ => some ["b"])
        (fun _ => Except.ok (Fetched.blob "d")) ["a", "b", "c"] [] ["a"] 2
        ⟨[("a", "1"), ("b", "2"), ("c", "3")], [], [], [], [("m")]⟩).errors =
        none :=
  refresh_noop_when_all_cached (fun _ => some ["b"])
    (fun _ => Except.ok (Fetched.blob "d")) ["a", "b", "c"] [] ["a"] 2
    ⟨[("a", "1"), ("b", "2"), ("c", "3")], [], [], [], [("m")]⟩ (by decide)

/-- C6 counterexample: `maxCache = 4`, six cached ids all mounted (cache over
its bound), cacheable list `["x", "y", "z"]`. The eviction loop stalls on
its first call, no room exists at all, yet the pass still fetches `"x"`
(JS `slice(0, maxCache - currentCachedIds.length)` with a negative end keeps
a prefix) and writes it to the cache store — contradicting "does not fetch
items for which no room was made" and "attempts exactly the filtered,
truncated candidate list". -/
theorem refresh_plan_cex :
    (syncLatestFiles (fun _ => some ["x", "y", "z"])
        (fun _ => Except.ok (Fetched.blob "d"))
        ["c1", "c2", "c3", "c4", "c5", "c6"]
        ["c1", "c2", "c3", "c4", "c5", "c6"] [] 4
        ⟨[("c1", "1"), ("c2", "2"), ("c3", "3"), ("c4", "4"), ("c5", "5"),
          ("c6", "6")], [], [], [], []⟩).stalled = true ∧
      (syncLatestFiles (fun _ => some ["x", "y", "z"])
        (fun _ => Except.ok (Fetched.blob "d"))
        ["c1", "c2", "c3", "c4", "c5", "c6"]
        ["c1", "c2", "c3", "c4", "c5", "c6"] [] 4
        ⟨[("c1", "1"), ("c2", "2"), ("c3", "3"), ("c4", "4"), ("c5", "5"),
          ("c6", "6")], [], [], [], []⟩).evicted = [] ∧
      (syncLatestFiles (fun _ => some ["x", "y", "z"])
        (fun _ => Except.ok (Fetched.blob "d"))
        ["c1", "c2", "c3", "c4", "c5", "c6"]
        ["c1", "c2", "c3", "c4", "c5", "c6"] [] 4
        ⟨[("c1", "1"), ("c2", "2"), ("c3", "3"), ("c4", "4"), ("c5", "5"),
          ("c6", "6")], [], [], [], []⟩).curAfterEvict.length = 6 ∧
      (syncLatestFiles (fun _ => some ["x", "y", "z"])
        (fun _ => Except.ok (Fetched.blob "d"))
        ["c1", "c2", "c3", "c4", "c5", "c6"]
        ["c1", "c2", "c3", "c4", "c5", "c6"] [] 4
        ⟨[("c1", "1"), ("c2", "2"), ("c3", "3"), ("c4", "4"), ("c5", "5"),
          ("c6", "6")], [], [], [], []⟩).attempted = ["x"] ∧
      AList.get (syncLatestFiles (fun _ => some ["x", "y", "z"])
        (fun _ => Except.ok (Fetched.blob "d"))
        ["c1", "c2", "c3", "c4", "c5", "c6"]
        ["c1", "c2", "c3", "c4", "c5", "c6"] [] 4
        ⟨[("c1", "1"), ("c2", "2"), ("c3", "3"), ("c4", "4"), ("c5", "5"),
          ("c6", "6")], [], [], [], []⟩).st.cache "x" = some "d" := by
  decide

/-- C6 (amended, requiring the cache to start within its bound,
`|cachedIds| ≤ maxCache`): the refresh pass computes `idsToFetch` as exactly
`recentIds ++ cacheableList`, already-cached ids removed, truncated to
`⌊3/4 · maxCache⌋`; when eviction never stalls it fetches exactly that list
after invoking the eviction policy exactly
`max(0, |cachedIds| + |idsToFetch| − maxCache)` times, and when an eviction
call returns `none` the loop stops early (at most that many calls, the
stalling call included) and only items that fit in the remaining room are
fetched. -/
theorem refresh_plan_amended (gci : Nat → Option (List FileId))
    (download : FileId → Except String Fetched)
    (cachedIds mountedIds recentIds : List FileId) (maxCache : Nat) (st : St)
    (hle : cachedIds.length ≤ maxCache) :
    (syncLatestFiles gci download cachedIds mountedIds recentIds maxCache
        st).idsToFetch =
      ((recentIds ++ (gci (maxCache * 3 / 4)).getD []).filter
        (fun id => !cachedIds.contains id)).take (maxCache * 3 / 4) ∧
      ((syncLatestFiles gci download cachedIds mountedIds recentIds maxCache
          st).stalled = false →
        (syncLatestFiles gci download cachedIds mountedIds recentIds maxCache
            st).attempted =
          (syncLatestFiles gci download cachedIds mountedIds recentIds
            maxCache st).idsToFetch ∧
        (syncLatestFiles gci download cachedIds mountedIds recentIds maxCache
            st).evicted.length =
          cachedIds.length +
            (syncLatestFiles gci download cachedIds mountedIds recentIds
              maxCache st).idsToFetch.length - maxCache) ∧
      ((syncLatestFiles gci download cachedIds mountedIds recentIds maxCache
          st).stalled = true →
        (syncLatestFiles gci download cachedIds mountedIds recentIds maxCache
            st).evicted.length + 1 ≤
          cachedIds.length +
            (syncLatestFiles gci download cachedIds mountedIds recentIds
              maxCache st).idsToFetch.length - maxCache ∧
        (syncLatestFiles gci download cachedIds mountedIds recentIds maxCache
            st).curAfterEvict.length +
          (syncLatestFiles gci download cachedIds mountedIds recentIds
            maxCache st).attempted.length ≤ maxCache) := by
  by_cases hF : (((recentIds ++ (gci (maxCache * 3 / 4)).getD []).filter
      (fun id => !cachedIds.contains id)).take (maxCache * 3 / 4)).isEmpty
  · have hFe := List.isEmpty_iff.mp hF
    rw [syncLatestFiles_empty gci download cachedIds mountedIds recentIds
      maxCache st hFe]
    refine ⟨hFe.symm, fun _ => ⟨rfl, ?_⟩, fun hc => absurd hc (by simp)⟩
    show ([] : List FileId).length =
      cachedIds.length + ([] : List FileId).length - maxCache
    simp
    omega
  · rw [Bool.not_eq_true] at hF
    rw [syncLatestFiles_main gci download cachedIds mountedIds recentIds
      maxCache st hF]
    have hfacts := refresh_plan_main_facts mountedIds recentIds cachedIds
      st.cache maxCache
      (cachedIds.length + (((recentIds ++ (gci (maxCache * 3 / 4)).getD
        []).filter (fun id => !cachedIds.contains id)).take
        (maxCache * 3 / 4)).length - maxCache)
      (((recentIds ++ (gci (maxCache * 3 / 4)).getD []).filter
        (fun id => !cachedIds.contains id)).take (maxCache * 3 / 4))
      hle rfl
    exact ⟨rfl, fun hst => hfacts.1 hst, fun hst => hfacts.2 hst⟩

/-- Witness for the C6 amended theorem: `maxCache = 4`, two cached ids, one
mounted; cacheable list brings two new ids; eviction is never needed
(`numToEvict = 0`) and both ids are fetched. -/
theorem refresh_plan_amended_witness :
    (syncLatestFiles (fun _ => some ["x", "y"])
        (fun _ => Except.ok (Fetched.blob "d")) ["a", "b"] ["a"] [] 4
        ⟨[("a", "1"), ("b", "2")], [], [], [], []⟩).idsToFetch =
        ((([] : List FileId) ++ (some ["x", "y"]).getD []).filter
          (fun id => !(["a", "b"] : List FileId).contains id)).take
          (4 * 3 / 4) ∧
      (syncLatestFiles (fun _ => some ["x", "y"])
          (fun _ => Except.ok (Fetched.blob "d")) ["a", "b"] ["a"] [] 4
          ⟨[("a", "1"), ("b", "2")], [], [], [], []⟩).attempted =
        (syncLatestFiles (fun _ => some ["x", "y"])
          (fun _ => Except.ok (Fetched.blob "d")) ["a", "b"] ["a"] [] 4
          ⟨[("a", "1"), ("b", "2")], [], [], [], []⟩).idsToFetch ∧
      (syncLatestFiles (fun _ => some ["x", "y"])
          (fun _ => Except.ok (Fetched.blob "d")) ["a", "b"] ["a"] [] 4
          ⟨[("a", "1"), ("b", "2")], [], [], [], []⟩).evicted.length = 0 := by
  have h := refresh_plan_amended (fun _ => some ["x", "y"])
    (fun _ => Except.ok (Fetched.blob "d")) ["a", "b"] ["a"] [] 4
    ⟨[("a", "1"), ("b", "2")], [], [], [], []⟩ (by decide)
  have h2 := h.2.1 (by decide)
  refine ⟨h.1, h2.1, ?_⟩
  rw [h2.2, h.1]
  decide

/-- C4 counterexample: the Live Mount Fetcher adds blobs to the cache store
without consulting `maxCache` and without evicting. With `maxCache = 1`, one
cached id `"a"` (the bound is met) and a mounted id `"b"` missing from the
cache, its fetch writes `"b"` and leaves two ids in CacheSet — exceeding
`maxCache`. -/
theorem liveCache_overflow_cex :
    (AList.keys (runLiveCache (fun _ => Except.ok (Fetched.blob "d")) ["b"]
        ["a"] [] [] (some 10) ⟨[("a", "u")], [], [], [], []⟩).1.cache).length =
        2 ∧
      ¬((AList.keys (runLiveCache (fun _ => Except.ok (Fetched.blob "d"))
        ["b"] ["a"] [] [] (some 10)
        ⟨[("a", "u")], [], [], [], []⟩).1.cache).length ≤ 1) := by
  decide

/-- C4 (amended): after a completed refresh pass of the Cache Refresher that
starts with the cache within its bound (`cachedIds` are exactly the cache
store's ids, duplicate-free, and `|cachedIds| ≤ maxCache`), the number of
ids in CacheSet is still at most `maxCache`. (The Live Mount Fetcher, by
contrast, can push CacheSet past the bound — see the counterexample.) -/
theorem refresh_cache_bound_amended (gci : Nat → Option (List FileId))
    (download : FileId → Except String Fetched)
    (cachedIds mountedIds recentIds : List FileId) (maxCache : Nat) (st : St)
    (hkeys : cachedIds = AList.keys st.cache)
    (hnd : (AList.keys st.cache).Nodup)
    (hle : cachedIds.length ≤ maxCache) :
    (AList.keys (syncLatestFiles gci download cachedIds mountedIds recentIds
        maxCache st).st.cache).length ≤ maxCache := by
  by_cases hF : (((recentIds ++ (gci (maxCache * 3 / 4)).getD []).filter
      (fun id => !cachedIds.contains id)).take (maxCache * 3 / 4)).isEmpty
  · rw [syncLatestFiles_empty gci download cachedIds mountedIds recentIds
      maxCache st (List.isEmpty_iff.mp hF)]
    rw [← hkeys] at hnd ⊢
    exact hle
  · rw [Bool.not_eq_true] at hF
    rw [syncLatestFiles_main gci download cachedIds mountedIds recentIds
      maxCache st hF]
    exact refresh_bound_main_facts download mountedIds recentIds cachedIds
      maxCache
      (cachedIds.length + (((recentIds ++ (gci (maxCache * 3 / 4)).getD
        []).filter (fun id => !cachedIds.contains id)).take
        (maxCache * 3 / 4)).length - maxCache)
      (((recentIds ++ (gci (maxCache * 3 / 4)).getD []).filter
        (fun id => !cachedIds.contains id)).take (maxCache * 3 / 4))
      st hkeys hnd hle

/-- Witness for the C4 amended theorem: `maxCache = 2`, cache holds
`{a, b}`, nothing protected, the cacheable list brings a new id `"x"`; one
id is evicted, `"x"` is fetched, and the final cache again holds 2 ≤ 2
ids. -/
theorem refresh_cache_bound_amended_witness :
    (AList.keys (syncLatestFiles (fun _ => some ["x"])
        (fun _ => Except.ok (Fetched.blob "d")) ["a", "b"] [] [] 2
        ⟨[("a", "1"), ("b", "2")], [], [], [], []⟩).st.cache).length ≤ 2 :=
  refresh_cache_bound_amended (fun _ => some ["x"])
    (fun _ => Except.ok (Fetched.blob "d")) ["a", "b"] [] [] 2
    ⟨[("a", "1"), ("b", "2")], [], [], [], []⟩ (by decide) (by decide)
    (by decide)

end FileCache
